import Mathlib

/-!
Shallow embedding of the chess engine in `src/main.rs` (a UCI engine built on
the external `pleco` chess library).

The `pleco` board and move types are external collaborators (the spec §3
lists the interface the engine relies on), so they are modelled abstractly by
a `ChessLib` structure bundling the operations the engine calls, over an
opaque position type `Pos`.  Everything written by the repository itself
(transposition table, move ordering, evaluation, the `minimax` searcher, the
iterative-deepening driver and the `go`/`setoption` command handling) is
translated directly from `src/main.rs`.

Numeric conventions: Rust `u64`/`u32`/`u8`/`usize` values that are only ever
compared, added within range, or used as indices are modelled as `Nat`;
`i32` scores as `Int` (all score arithmetic in the source stays far inside
i32 range: |score| ≤ 2_147_483_647 and evaluation magnitudes are ≤ 10^7).

Wall-clock time: `Engine::out_of_time` reads `Instant::elapsed` and compares
it with the move budget.  Real time is external and monotone; each call of
`out_of_time` is modelled as one poll of a boolean oracle `oot_oracle`
indexed by a poll counter `ticks` that the poll advances.  A run of the real
program corresponds to the oracle that records what each successive deadline
comparison returned.
-/

/-- Constant `MINIMUM_EVAL` from the source (`-2_147_483_647`). -/
def MINIMUM_EVAL : Int := -2147483647

/-- Constant `MAXIMUM_EVAL` from the source (`2_147_483_647`). -/
def MAXIMUM_EVAL : Int := 2147483647

/-- Constant `MAX_EXTENSIONS` from the source. -/
def MAX_EXTENSIONS : Nat := 8

/-- Constant `TRANSPOSITION_OBJECT_BYTES` from the source. -/
def TRANSPOSITION_OBJECT_BYTES : Nat := 16

/-- Constant `MB_TO_ITEMS = 1024 * 1024 / 16 = 65536` from the source. -/
def MB_TO_ITEMS : Nat := 1024 * 1024 / TRANSPOSITION_OBJECT_BYTES

/-- Side to move, pleco `Player`. -/
inductive Player where
  | White : Player
  | Black : Player
deriving DecidableEq

/-- pleco `BitMove` is a 16-bit move code; we model it as a natural number.
`BitMove::null()` is the zero code. -/
abbrev BitMove := Nat

/-- pleco `BitMove::null()`. -/
def BitMove.null : BitMove := 0

/-- pleco `BitMove::is_null` (`self == BitMove::null()`). -/
def BitMove.is_null (m : BitMove) : Bool := m == BitMove.null

/-- The interface of the external `pleco` chess library used by the engine
(spec §3).  `Pos` is the opaque position state; the board history stack that
`apply_move`/`undo_move` maintain is modelled separately (see `Board`). -/
structure ChessLib (Pos : Type) where
  generate_moves : Pos → List BitMove
  apply_move : Pos → BitMove → Pos
  turn : Pos → Player
  zobrist : Pos → Nat
  in_check : Pos → Bool
  checkmate : Pos → Bool
  stalemate : Pos → Bool
  gives_check : Pos → BitMove → Bool
  is_capture : BitMove → Bool
  piece_at_sq : Pos → Nat → Nat
  moves_played : Pos → Nat

/-- pleco `Board`: current position plus the undo history that
`apply_move` pushes and `undo_move` pops. -/
structure Board (Pos : Type) where
  pos : Pos
  hist : List Pos

/-- pleco `Board::apply_move`: play a move, remembering the previous state. -/
def Board.apply_move {Pos : Type} (lib : ChessLib Pos) (b : Board Pos) (mv : BitMove) : Board Pos :=
  { pos := lib.apply_move b.pos mv, hist := b.pos :: b.hist }

/-- pleco `Board::undo_move`: restore the previous state.  pleco panics when
the history is empty; the engine only undoes moves it has applied, so that
branch is unreachable and modelled as the identity. -/
def Board.undo_move {Pos : Type} (b : Board Pos) : Board Pos :=
  match b.hist with
  | [] => b
  | p :: rest => { pos := p, hist := rest }

/-- pleco `Board::shallow_clone`: a fresh board at the same position with no
shared undo history. -/
def Board.shallow_clone {Pos : Type} (b : Board Pos) : Board Pos :=
  { pos := b.pos, hist := [] }

/-- Struct `TranspositionObject` from the source (16 bytes: u64 hash, i32 score,
u8 depth, 16-bit best move). -/
structure TranspositionObject where
  hash : Nat
  score : Int
  depth : Nat
  best_move : BitMove
deriving DecidableEq

/-- Constructor `TranspositionObject::new()`: the vacant entry. -/
def TranspositionObject.new : TranspositionObject :=
  { hash := 0, score := 0, depth := 0, best_move := BitMove.null }

/-- The `Engine` struct from the source.  `instant` (the stopwatch) is replaced
by the poll oracle `oot_oracle`/`ticks` described in the header comment. -/
structure Engine (Pos : Type) where
  board : Board Pos
  search_stopped : Bool
  active : Bool
  wtime : Nat
  btime : Nat
  movetime : Nat
  depth : Nat
  nodes : Nat
  hash_table_size_mb : Nat
  transposition_table : List TranspositionObject
  entries_filled : Nat
  oot_oracle : Nat → Bool
  ticks : Nat

/-- Method `Engine::out_of_time`: compares `instant.elapsed()` with the budget.
Modelled as consuming one value of the wall-clock poll oracle. -/
def out_of_time {Pos : Type} (e : Engine Pos) : Bool × Engine Pos :=
  (e.oot_oracle e.ticks, { e with ticks := e.ticks + 1 })

/-- Method re_initialize of `Engine` (here named `re_init`): zero the
per-command clock fields and the node counter. -/
def re_init {Pos : Type} (e : Engine Pos) : Engine Pos :=
  { e with wtime := 0, btime := 0, movetime := 0, nodes := 0 }

/-- Method `Engine::transposition_find`.  Indexing uses
`zobrist % (hash_table_size_mb * MB_TO_ITEMS)`; Rust `%` panics when the
divisor is zero and `Vec` indexing panics out of bounds — both are only
avoided when the table is consistently sized, which the in-bounds theorems
below make explicit (`transposition_index_checked` models the panic itself).
`List.getD` supplies the vacant entry in the (unreachable when sized)
out-of-range case. -/
def transposition_find {Pos : Type} (lib : ChessLib Pos) (e : Engine Pos) (b : Board Pos) :
    TranspositionObject :=
  let transpos_object :=
    e.transposition_table.getD (lib.zobrist b.pos % (e.hash_table_size_mb * MB_TO_ITEMS))
      TranspositionObject.new
  if transpos_object.hash ≠ lib.zobrist b.pos then TranspositionObject.new
  else transpos_object

/-- Method `Engine::transposition_store`: overwrite the slot unconditionally,
counting a fill when the previous occupant was vacant (`hash == 0`). -/
def transposition_store {Pos : Type} (lib : ChessLib Pos) (e : Engine Pos) (p : Pos)
    (score : Int) (best_move : BitMove) (depth : Nat) : Engine Pos :=
  let transpos_object : TranspositionObject :=
    { hash := lib.zobrist p, score := score, depth := depth, best_move := best_move }
  let idx := lib.zobrist p % (e.hash_table_size_mb * MB_TO_ITEMS)
  let old_obj := e.transposition_table.getD idx TranspositionObject.new
  let e1 := if old_obj.hash = 0 then { e with entries_filled := e.entries_filled + 1 } else e
  { e1 with transposition_table := e1.transposition_table.set idx transpos_object }

/-- Method `Engine::change_hash_size`: clear and reallocate to
`new_size * MB_TO_ITEMS` vacant entries, resetting the filled counter.
`new_size = 0` is accepted and yields an empty table. -/
def change_hash_size {Pos : Type} (e : Engine Pos) (new_size : Nat) : Engine Pos :=
  { e with hash_table_size_mb := new_size,
           transposition_table := List.replicate (new_size * MB_TO_ITEMS) TranspositionObject.new,
           entries_filled := 0 }

/-- The slot index computation `zobrist % (hash_table_size_mb * MB_TO_ITEMS)`
that both `transposition_find` and `transposition_store` perform, with the
Rust divide-by-zero panic made explicit as `none`. -/
def transposition_index_checked (hash_table_size_mb : Nat) (zobrist : Nat) : Option Nat :=
  if hash_table_size_mb * MB_TO_ITEMS = 0 then none
  else some (zobrist % (hash_table_size_mb * MB_TO_ITEMS))

/-- The static key the move orderer assigns inside `gen_and_order_moves`:
capture → 6, gives check → 5, otherwise 0 (capture tested first). -/
def move_score {Pos : Type} (lib : ChessLib Pos) (p : Pos) (m : BitMove) : Nat :=
  if lib.is_capture m then 6
  else if lib.gives_check p m then 5
  else 0

/-- Function `gen_and_order_moves` from the source: with fewer than two moves the
generated list is returned as is; otherwise each move is paired with its
static key, the pairs are stably sorted ascending by key (Rust
`sort_by_key`; `List.mergeSort` is likewise stable) and reversed, and the
moves are written back over a fresh `generate_moves()` list index by index —
since every index is overwritten, the result is exactly the reordered list. -/
def gen_and_order_moves {Pos : Type} (lib : ChessLib Pos) (b : Board Pos) : List BitMove :=
  let moves := lib.generate_moves b.pos
  if moves.length < 2 then moves
  else
    let moves_scores := moves.map (fun m => (m, move_score lib b.pos m))
    let sorted := (moves_scores.mergeSort (fun x y => decide (x.2 ≤ y.2))).reverse
    sorted.map Prod.fst

/-- Operation `count_all_pieces` of pleco: the number of occupied squares.  (pleco
computes it as a population count of the occupancy bitboard; that equals the
number of squares whose piece code is nonzero.) -/
def count_all_pieces {Pos : Type} (lib : ChessLib Pos) (p : Pos) : Nat :=
  ((List.range 64).filter (fun sq => lib.piece_at_sq p sq != 0)).length

/-- Stage flag `game_stage` computed at the top of `evaluate`: 1 ("endgame") iff fewer
than 14 pieces remain, else 0. -/
def game_stage {Pos : Type} (lib : ChessLib Pos) (p : Pos) : Nat :=
  if count_all_pieces lib p < 14 then 1 else 0

/-- Table `NONE_TABLE` from `evaluate`. -/
def NONE_TABLE : List Int :=
  [0, 0, 0, 0, 0, 0, 0, 0,
   0, 0, 0, 0, 0, 0, 0, 0,
   0, 0, 0, 0, 0, 0, 0, 0,
   0, 0, 0, 0, 0, 0, 0, 0,
   0, 0, 0, 0, 0, 0, 0, 0,
   0, 0, 0, 0, 0, 0, 0, 0,
   0, 0, 0, 0, 0, 0, 0, 0,
   0, 0, 0, 0, 0, 0, 0, 0]

/-- Table `MG_PAWN_TABLE` from `evaluate`. -/
def MG_PAWN_TABLE : List Int :=
  [0, 0, 0, 0, 0, 0, 0, 0,
   50, 50, 50, 50, 50, 50, 50, 50,
   10, 10, 20, 30, 30, 20, 10, 10,
   5, 5, 10, 25, 25, 10, 5, 5,
   0, 0, 0, 20, 20, 0, 0, 0,
   5, -5, -10, 0, 0, -10, -5, 5,
   5, 10, 10, -20, -20, 10, 10, 5,
   0, 0, 0, 0, 0, 0, 0, 0]

/-- Table `EG_PAWN_TABLE` from `evaluate`. -/
def EG_PAWN_TABLE : List Int :=
  [0, 0, 0, 0, 0, 0, 0, 0,
   80, 80, 80, 80, 80, 80, 80, 80,
   50, 50, 50, 50, 50, 50, 50, 50,
   30, 30, 30, 30, 30, 30, 30, 30,
   10, 10, 10, 10, 10, 10, 10, 10,
   10, 10, 10, 10, 10, 10, 10, 10,
   -5, -5, -5, -5, -5, -5, -5, -5,
   0, 0, 0, 0, 0, 0, 0, 0]

/-- Table `MG_KNIGHT_TABLE` from `evaluate`. -/
def MG_KNIGHT_TABLE : List Int :=
  [-50, -40, -30, -30, -30, -30, -40, -50,
   -40, -20, 0, 0, 0, 0, -20, -40,
   -30, 0, 10, 15, 15, 10, 0, -30,
   -30, 5, 15, 20, 20, 15, 5, -30,
   -30, 0, 15, 20, 20, 15, 0, -30,
   -30, 5, 10, 15, 15, 10, 5, -30,
   -40, -20, 0, 5, 5, 0, -20, -40,
   -50, -40, -30, -30, -30, -30, -40, -50]

/-- Table `MG_BISHOP_TABLE` from `evaluate`. -/
def MG_BISHOP_TABLE : List Int :=
  [-20, -10, -10, -10, -10, -10, -10, -20,
   -10, 0, 0, 0, 0, 0, 0, -10,
   -10, 0, 5, 10, 10, 5, 0, -10,
   -10, 5, 5, 10, 10, 5, 5, -10,
   -10, 0, 10, 10, 10, 10, 0, -10,
   -10, 10, 10, 10, 10, 10, 10, -10,
   -10, 5, 0, 0, 0, 0, 5, -10,
   -20, -10, -10, -10, -10, -10, -10, -20]

/-- Table `MG_ROOK_TABLE` from `evaluate`. -/
def MG_ROOK_TABLE : List Int :=
  [0, 0, 0, 0, 0, 0, 0, 0,
   5, 10, 10, 10, 10, 10, 10, 5,
   -5, 0, 0, 0, 0, 0, 0, -5,
   -5, 0, 0, 0, 0, 0, 0, -5,
   -5, 0, 0, 0, 0, 0, 0, -5,
   -5, 0, 0, 0, 0, 0, 0, -5,
   -5, 0, 0, 0, 0, 0, 0, -5,
   0, 0, 0, 5, 5, 0, 0, 0]

/-- Table `MG_QUEEN_TABLE` from `evaluate`. -/
def MG_QUEEN_TABLE : List Int :=
  [-20, -10, -10, -5, -5, -10, -10, -20,
   -10, 0, 0, 0, 0, 0, 0, -10,
   0, 0, 5, -5, -5, 5, 0, 0,
   -5, 0, -5, 5, 5, -5, 0, -5,
   -5, 0, -5, 5, 5, -5, 0, -5,
   -10, 5, 5, -5, -5, 5, 5, -10,
   -10, 0, 5, 0, 0, 5, 0, -10,
   -20, -10, -10, -5, -5, -10, -10, -20]

/-- Table `MG_KING_TABLE` from `evaluate`. -/
def MG_KING_TABLE : List Int :=
  [-30, -40, -40, -50, -50, -40, -40, -30,
   -30, -40, -40, -50, -50, -40, -40, -30,
   -30, -40, -40, -50, -50, -40, -40, -30,
   -30, -40, -40, -50, -50, -40, -40, -30,
   -20, -30, -30, -40, -40, -30, -30, -20,
   -10, -20, -20, -20, -20, -20, -20, -10,
   20, 20, 0, 0, 0, 0, 20, 20,
   20, 30, 10, 0, 0, 10, 30, 20]

/-- Table `EG_KING_TABLE` from `evaluate`. -/
def EG_KING_TABLE : List Int :=
  [-50, -40, -30, -20, -20, -30, -40, -50,
   -30, -20, -10, 0, 0, -10, -20, -30,
   -30, -10, 20, 30, 30, 20, -10, -30,
   -30, -10, 30, 40, 40, 30, -10, -30,
   -30, -10, 30, 40, 40, 30, -10, -30,
   -30, -10, 20, 30, 30, 20, -10, -30,
   -30, -30, 0, 0, 0, 0, -30, -30,
   -50, -30, -30, -30, -30, -30, -30, -50]

/-- Array `PIECE_TABLES_ALL` from `evaluate`: stage 0 (middlegame) and stage 1
(endgame) rows, indexed by piece type 0..6. -/
def PIECE_TABLES_ALL : List (List (List Int)) :=
  [[NONE_TABLE, MG_PAWN_TABLE, MG_KNIGHT_TABLE, MG_BISHOP_TABLE, MG_ROOK_TABLE,
    MG_QUEEN_TABLE, MG_KING_TABLE],
   [NONE_TABLE, EG_PAWN_TABLE, MG_KNIGHT_TABLE, MG_BISHOP_TABLE, MG_ROOK_TABLE,
    MG_QUEEN_TABLE, EG_KING_TABLE]]

/-- Array `PIECE_VALUES` from `evaluate`. -/
def PIECE_VALUES : List Int := [0, 100, 320, 330, 500, 900, 0]

/-- Table lookup `PIECE_TABLES_ALL[stage][ptype][idx]`.  Rust array indexing
panics out of bounds; inside `evaluate` the indices stay in range for every
piece code pleco produces, and `getD 0` covers the impossible residue. -/
def pst_lookup (stage ptype idx : Nat) : Int :=
  ((PIECE_TABLES_ALL.getD stage []).getD ptype []).getD idx 0

/-- Body of the 0..63 square loop of `evaluate`.  pleco piece codes: 0 none,
1–6 the White pawn…king, 9–14 the Black pawn…king.  The source detects Black
by `piece % 8 != piece` and indexes values by `piece % 8` (equal to
`piece.type_of()` for every code pleco produces); `piece.player()` is White
exactly when the code is below 8. -/
def evaluate_square {Pos : Type} (lib : ChessLib Pos) (p : Pos) (eval : Int)
    (location : Nat) : Int :=
  let piece := lib.piece_at_sq p location
  if piece = 0 then eval
  else
    let eval1 :=
      if piece % 8 ≠ piece then eval - PIECE_VALUES.getD (piece % 8) 0
      else eval + PIECE_VALUES.getD (piece % 8) 0
    if piece % 8 = piece then
      eval1 + pst_lookup (game_stage lib p) (piece % 8) (63 - location)
    else
      eval1 - pst_lookup (game_stage lib p) (piece % 8) location

/-- Function `evaluate` from the source: terminal shortcuts, then material
and piece-square placement over the 64 squares. -/
def evaluate {Pos : Type} (lib : ChessLib Pos) (p : Pos) : Int :=
  if lib.checkmate p then
    if lib.turn p = Player.White then -9999999 + (lib.moves_played p : Int)
    else 9999999 - (lib.moves_played p : Int)
  else if lib.stalemate p then 0
  else
    (List.range 64).foldl (evaluate_square lib p) 0

/-- Function `futile` from the source: `300 * depth * depth + evaluate(board) < alpha`
(the `u32` margin is cast to `i32` before the comparison; for the depths ≤ 3
at which the searcher calls it, both fit easily). -/
def futile {Pos : Type} (lib : ChessLib Pos) (p : Pos) (depth : Nat) (alpha : Int) : Bool :=
  let stand_pat := evaluate lib p
  let futility_margin : Int := 300 * (depth : Int) * (depth : Int)
  decide (futility_margin + stand_pat < alpha)

/-- Result quadruple of one `minimax` call: the engine and board after the
call (both are `&mut` in the source) and the returned `(BitMove, i32)`. -/
structure SearchResult (Pos : Type) where
  engine : Engine Pos
  board : Board Pos
  best_move : BitMove
  score : Int

mutual

/-- Function `minimax` from the source: leaf test, transposition cutoff, deadline
check, then the side-to-move move loop. -/
def minimax {Pos : Type} (lib : ChessLib Pos) (e : Engine Pos) (b : Board Pos)
    (depth : Nat) (alpha beta : Int) (search_extensions : Nat) : SearchResult Pos :=
  let moves := gen_and_order_moves lib b
  if h0 : depth = 0 ∨ moves = [] then
    ⟨{ e with nodes := e.nodes + 1 }, b, BitMove.null, evaluate lib b.pos⟩
  else
    let possible_transposition := transposition_find lib e b
    if possible_transposition.best_move ≠ BitMove.null ∧
        depth ≤ possible_transposition.depth then
      ⟨e, b, possible_transposition.best_move, possible_transposition.score⟩
    else
      let o := out_of_time e
      if o.1 then ⟨o.2, b, BitMove.null, -1⟩
      else
        if lib.turn b.pos = Player.White then
          minimax_loop_white lib o.2 b depth alpha beta search_extensions BitMove.null moves
            (Nat.pos_of_ne_zero (fun hz => h0 (Or.inl hz)))
        else
          minimax_loop_black lib o.2 b depth alpha beta search_extensions BitMove.null moves
            (Nat.pos_of_ne_zero (fun hz => h0 (Or.inl hz)))
termination_by (depth, MAX_EXTENSIONS - search_extensions, 1, 0)

/-- The child call selected for one move in the White (maximising) loop:
extension on capture/check while below `MAX_EXTENSIONS`, else full-depth
recursion when `depth > 3`, else the futility test, whose placeholder result
is `(mv, alpha - 2)`.  `b1` is the board with `mv` already applied. -/
def child_call_white {Pos : Type} (lib : ChessLib Pos) (e : Engine Pos) (b1 : Board Pos)
    (depth : Nat) (alpha beta : Int) (ext : Nat) (mv : BitMove) (_hd : 0 < depth) :
    SearchResult Pos :=
  if hx : (lib.is_capture mv || lib.in_check b1.pos) = true ∧ ext < MAX_EXTENSIONS then
    minimax lib e b1 depth alpha beta (ext + 1)
  else if 3 < depth then
    minimax lib e b1 (depth - 1) alpha beta ext
  else if futile lib b1.pos depth alpha then
    ⟨e, b1, mv, alpha - 2⟩
  else
    minimax lib e b1 (depth - 1) alpha beta ext
termination_by (depth, MAX_EXTENSIONS - ext, 0, 0)

/-- The child call selected for one move in the Black (minimising) loop:
as for White but the futility test uses `-beta` and the placeholder is
`(mv, beta + 2)`. -/
def child_call_black {Pos : Type} (lib : ChessLib Pos) (e : Engine Pos) (b1 : Board Pos)
    (depth : Nat) (alpha beta : Int) (ext : Nat) (mv : BitMove) (_hd : 0 < depth) :
    SearchResult Pos :=
  if hx : (lib.is_capture mv || lib.in_check b1.pos) = true ∧ ext < MAX_EXTENSIONS then
    minimax lib e b1 depth alpha beta (ext + 1)
  else if 3 < depth then
    minimax lib e b1 (depth - 1) alpha beta ext
  else if futile lib b1.pos depth (-beta) then
    ⟨e, b1, mv, beta + 2⟩
  else
    minimax lib e b1 (depth - 1) alpha beta ext
termination_by (depth, MAX_EXTENSIONS - ext, 0, 0)

/-- The White (maximising) move loop of `minimax`: apply, recurse, undo,
propagate the sentinel, raise alpha, cut off on `beta ≤ alpha`; after the
loop (or on cutoff) store `(alpha, best_move, depth)` and return. -/
def minimax_loop_white {Pos : Type} (lib : ChessLib Pos) (e : Engine Pos) (b : Board Pos)
    (depth : Nat) (alpha beta : Int) (ext : Nat) (best_move : BitMove)
    (moves : List BitMove) (hd : 0 < depth) : SearchResult Pos :=
  match moves with
  | [] => ⟨transposition_store lib e b.pos alpha best_move depth, b, best_move, alpha⟩
  | mv :: rest =>
    let b1 := Board.apply_move lib b mv
    let r := child_call_white lib e b1 depth alpha beta ext mv hd
    let b2 := Board.undo_move r.board
    if r.best_move = BitMove.null ∧ r.score = -1 then
      ⟨r.engine, b2, BitMove.null, -1⟩
    else
      let alpha2 := if alpha < r.score then r.score else alpha
      let best2 := if alpha < r.score then mv else best_move
      if beta ≤ alpha2 then
        ⟨transposition_store lib r.engine b2.pos alpha2 best2 depth, b2, best2, alpha2⟩
      else
        minimax_loop_white lib r.engine b2 depth alpha2 beta ext best2 rest hd
termination_by (depth, MAX_EXTENSIONS - ext, 0, moves.length)

/-- The Black (minimising) move loop of `minimax`: as for White but beta is
lowered and `(beta, best_move, depth)` is stored. -/
def minimax_loop_black {Pos : Type} (lib : ChessLib Pos) (e : Engine Pos) (b : Board Pos)
    (depth : Nat) (alpha beta : Int) (ext : Nat) (best_move : BitMove)
    (moves : List BitMove) (hd : 0 < depth) : SearchResult Pos :=
  match moves with
  | [] => ⟨transposition_store lib e b.pos beta best_move depth, b, best_move, beta⟩
  | mv :: rest =>
    let b1 := Board.apply_move lib b mv
    let r := child_call_black lib e b1 depth alpha beta ext mv hd
    let b2 := Board.undo_move r.board
    if r.best_move = BitMove.null ∧ r.score = -1 then
      ⟨r.engine, b2, BitMove.null, -1⟩
    else
      let beta2 := if r.score < beta then r.score else beta
      let best2 := if r.score < beta then mv else best_move
      if beta2 ≤ alpha then
        ⟨transposition_store lib r.engine b2.pos beta2 best2 depth, b2, best2, beta2⟩
      else
        minimax_loop_black lib r.engine b2 depth alpha beta2 ext best2 rest hd
termination_by (depth, MAX_EXTENSIONS - ext, 0, moves.length)

end

mutual

/-- The searcher with the capture/check extension branch deleted: every move
recurses through the depth/futility path.  This is the comparator for the
claim that, seeded at the extension cap, the extension branch of `minimax`
can never fire; apart from the deleted branch it is a verbatim copy. -/
def minimaxNE {Pos : Type} (lib : ChessLib Pos) (e : Engine Pos) (b : Board Pos)
    (depth : Nat) (alpha beta : Int) (search_extensions : Nat) : SearchResult Pos :=
  let moves := gen_and_order_moves lib b
  if h0 : depth = 0 ∨ moves = [] then
    ⟨{ e with nodes := e.nodes + 1 }, b, BitMove.null, evaluate lib b.pos⟩
  else
    let possible_transposition := transposition_find lib e b
    if possible_transposition.best_move ≠ BitMove.null ∧
        depth ≤ possible_transposition.depth then
      ⟨e, b, possible_transposition.best_move, possible_transposition.score⟩
    else
      let o := out_of_time e
      if o.1 then ⟨o.2, b, BitMove.null, -1⟩
      else
        if lib.turn b.pos = Player.White then
          minimax_loop_whiteNE lib o.2 b depth alpha beta search_extensions BitMove.null moves
            (Nat.pos_of_ne_zero (fun hz => h0 (Or.inl hz)))
        else
          minimax_loop_blackNE lib o.2 b depth alpha beta search_extensions BitMove.null moves
            (Nat.pos_of_ne_zero (fun hz => h0 (Or.inl hz)))
termination_by (depth, 1, 0)

/-- White child call of `minimaxNE`: no extension branch. -/
def child_call_whiteNE {Pos : Type} (lib : ChessLib Pos) (e : Engine Pos) (b1 : Board Pos)
    (depth : Nat) (alpha beta : Int) (ext : Nat) (mv : BitMove) (_hd : 0 < depth) :
    SearchResult Pos :=
  if 3 < depth then
    minimaxNE lib e b1 (depth - 1) alpha beta ext
  else if futile lib b1.pos depth alpha then
    ⟨e, b1, mv, alpha - 2⟩
  else
    minimaxNE lib e b1 (depth - 1) alpha beta ext
termination_by (depth, 0, 0)

/-- Black child call of `minimaxNE`: no extension branch. -/
def child_call_blackNE {Pos : Type} (lib : ChessLib Pos) (e : Engine Pos) (b1 : Board Pos)
    (depth : Nat) (alpha beta : Int) (ext : Nat) (mv : BitMove) (_hd : 0 < depth) :
    SearchResult Pos :=
  if 3 < depth then
    minimaxNE lib e b1 (depth - 1) alpha beta ext
  else if futile lib b1.pos depth (-beta) then
    ⟨e, b1, mv, beta + 2⟩
  else
    minimaxNE lib e b1 (depth - 1) alpha beta ext
termination_by (depth, 0, 0)

/-- White move loop of `minimaxNE`. -/
def minimax_loop_whiteNE {Pos : Type} (lib : ChessLib Pos) (e : Engine Pos) (b : Board Pos)
    (depth : Nat) (alpha beta : Int) (ext : Nat) (best_move : BitMove)
    (moves : List BitMove) (hd : 0 < depth) : SearchResult Pos :=
  match moves with
  | [] => ⟨transposition_store lib e b.pos alpha best_move depth, b, best_move, alpha⟩
  | mv :: rest =>
    let b1 := Board.apply_move lib b mv
    let r := child_call_whiteNE lib e b1 depth alpha beta ext mv hd
    let b2 := Board.undo_move r.board
    if r.best_move = BitMove.null ∧ r.score = -1 then
      ⟨r.engine, b2, BitMove.null, -1⟩
    else
      let alpha2 := if alpha < r.score then r.score else alpha
      let best2 := if alpha < r.score then mv else best_move
      if beta ≤ alpha2 then
        ⟨transposition_store lib r.engine b2.pos alpha2 best2 depth, b2, best2, alpha2⟩
      else
        minimax_loop_whiteNE lib r.engine b2 depth alpha2 beta ext best2 rest hd
termination_by (depth, 0, moves.length)

/-- Black move loop of `minimaxNE`. -/
def minimax_loop_blackNE {Pos : Type} (lib : ChessLib Pos) (e : Engine Pos) (b : Board Pos)
    (depth : Nat) (alpha beta : Int) (ext : Nat) (best_move : BitMove)
    (moves : List BitMove) (hd : 0 < depth) : SearchResult Pos :=
  match moves with
  | [] => ⟨transposition_store lib e b.pos beta best_move depth, b, best_move, beta⟩
  | mv :: rest =>
    let b1 := Board.apply_move lib b mv
    let r := child_call_blackNE lib e b1 depth alpha beta ext mv hd
    let b2 := Board.undo_move r.board
    if r.best_move = BitMove.null ∧ r.score = -1 then
      ⟨r.engine, b2, BitMove.null, -1⟩
    else
      let beta2 := if r.score < beta then r.score else beta
      let best2 := if r.score < beta then mv else best_move
      if beta2 ≤ alpha then
        ⟨transposition_store lib r.engine b2.pos beta2 best2 depth, b2, best2, beta2⟩
      else
        minimax_loop_blackNE lib r.engine b2 depth alpha beta2 ext best2 rest hd
termination_by (depth, 0, moves.length)

end

/-- One line of standard output of the driver: an `info` progress line
(depth, node count, perspective-adjusted score, principal move) or the final
`bestmove` line.  The printed wall-clock `time` field is real time and is
not modelled. -/
inductive OutLine where
  | info (depth : Nat) (nodes : Nat) (score : Int) (pv : BitMove) : OutLine
  | bestmove (m : BitMove) : OutLine
deriving DecidableEq

/-- The `while !out_of_time() && depth < engine.depth` loop of `search`.
The loop condition polls the clock once per evaluation (the depth bound is
only compared when the poll says time remains, but the comparison itself has
no effect).  `max_depth` is the value of `engine.depth`, read afresh each
iteration in the source; no code run by the loop ever writes that field, so
it is passed as a constant. -/
def search_loop {Pos : Type} (lib : ChessLib Pos) (e : Engine Pos) (shallow_board : Board Pos)
    (max_depth : Nat) (depth : Nat) (best_move_info : BitMove × Int) (perspective : Int)
    (out : List OutLine) : Engine Pos × Board Pos × (BitMove × Int) × List OutLine :=
  let o := out_of_time e
  if _h : o.1 = false ∧ depth < max_depth then
    let past_best_move_info := best_move_info
    let depth1 := depth + 1
    let r := minimax lib o.2 shallow_board depth1 MINIMUM_EVAL MAXIMUM_EVAL MAX_EXTENSIONS
    let o2 := out_of_time r.engine
    let best2 := if o2.1 then past_best_move_info else (r.best_move, r.score)
    let line := OutLine.info depth1 o2.2.nodes (best2.2 * perspective) best2.1
    search_loop lib o2.2 r.board max_depth depth1 best2 perspective (out ++ [line])
  else (o.2, shallow_board, best_move_info, out)
termination_by max_depth - depth

/-- The iterative-deepening driver `search` from the source: clone the board
shallowly, iterate `minimax` at depths 1, 2, … seeding
`extensions_used = MAX_EXTENSIONS`, discard an iteration finished past the
deadline, and finally print `bestmove`.  (The stopwatch reset
`instant = Instant::now()` is reflected in the oracle values, which model
the successive deadline comparisons of this search.)  Returns the engine and the
lines printed. -/
def search {Pos : Type} (lib : ChessLib Pos) (e : Engine Pos) : Engine Pos × List OutLine :=
  let shallow_board := Board.shallow_clone e.board
  let best_move_info : BitMove × Int := (BitMove.null, 0)
  let perspective : Int := if lib.turn e.board.pos = Player.White then 1 else -1
  let r := search_loop lib e shallow_board e.depth 0 best_move_info perspective []
  (r.1, r.2.2.2 ++ [OutLine.bestmove r.2.2.1.1])

/-- The driver loop with `minimax` replaced by `minimaxNE` (comparator). -/
def search_loopNE {Pos : Type} (lib : ChessLib Pos) (e : Engine Pos) (shallow_board : Board Pos)
    (max_depth : Nat) (depth : Nat) (best_move_info : BitMove × Int) (perspective : Int)
    (out : List OutLine) : Engine Pos × Board Pos × (BitMove × Int) × List OutLine :=
  let o := out_of_time e
  if _h : o.1 = false ∧ depth < max_depth then
    let past_best_move_info := best_move_info
    let depth1 := depth + 1
    let r := minimaxNE lib o.2 shallow_board depth1 MINIMUM_EVAL MAXIMUM_EVAL MAX_EXTENSIONS
    let o2 := out_of_time r.engine
    let best2 := if o2.1 then past_best_move_info else (r.best_move, r.score)
    let line := OutLine.info depth1 o2.2.nodes (best2.2 * perspective) best2.1
    search_loopNE lib o2.2 r.board max_depth depth1 best2 perspective (out ++ [line])
  else (o.2, shallow_board, best_move_info, out)
termination_by max_depth - depth

/-- The driver with `minimax` replaced by `minimaxNE` (comparator). -/
def searchNE {Pos : Type} (lib : ChessLib Pos) (e : Engine Pos) : Engine Pos × List OutLine :=
  let shallow_board := Board.shallow_clone e.board
  let best_move_info : BitMove × Int := (BitMove.null, 0)
  let perspective : Int := if lib.turn e.board.pos = Player.White then 1 else -1
  let r := search_loopNE lib e shallow_board e.depth 0 best_move_info perspective []
  (r.1, r.2.2.2 ++ [OutLine.bestmove r.2.2.1.1])

/-- Decimal digit accumulator for `string_to_nat?`: `none` on the first
non-digit character. -/
def digits_to_nat? : List Char → Nat → Option Nat
  | [], acc => some acc
  | c :: cs, acc =>
    if c.isDigit then digits_to_nat? cs (acc * 10 + (c.toNat - 48))
    else none

/-- Rust `str::parse::<uN>` up to the width bound: all-decimal-digit,
nonempty strings parse to their value.  (Rust also accepts a leading `+`,
irrelevant for the commands considered; `String.toNat?` itself is avoided
because its byte-position recursion does not reduce in the kernel.) -/
def string_to_nat? (s : String) : Option Nat :=
  match s.data with
  | [] => none
  | cs => digits_to_nat? cs 0

/-- Rust `str::parse::<u32>().unwrap_or_default()`: the parsed number when it
is a valid u32, else 0. -/
def parse_u32 (s : String) : Nat :=
  match string_to_nat? s with
  | some n => if n < 4294967296 then n else 0
  | none => 0

/-- Rust `str::parse::<u8>().unwrap_or_default()` used for `go depth D`. -/
def parse_u8 (s : String) : Nat :=
  match string_to_nat? s with
  | some n => if n < 256 then n else 0
  | none => 0

/-- The `for i in 1..lvec.len()` parameter loop of the `go` branch of `com`:
each recognised keyword stores the parse of the following token.  Rust
indexes `lvec[i+1]` directly and panics when the keyword is the final token;
`getD ""` stands in for that unreachable-for-well-formed-commands panic
(the empty string parses to the same default 0).  The source calls `.trim()`
on each token; the tokens come from splitting the already-trimmed input line
on single spaces, and the theorems below only instantiate whitespace-free
tokens, on which `.trim()` is the identity, so it is omitted here. -/
def go_set_params {Pos : Type} (lvec : List String) (e0 : Engine Pos) : Engine Pos :=
  ((List.range lvec.length).drop 1).foldl (fun e i =>
    match lvec.getD i "" with
    | "depth" => { e with depth := parse_u8 (lvec.getD (i + 1) "") }
    | "wtime" => { e with wtime := parse_u32 (lvec.getD (i + 1) "") }
    | "btime" => { e with btime := parse_u32 (lvec.getD (i + 1) "") }
    | "movetime" => { e with movetime := parse_u32 (lvec.getD (i + 1) "") }
    | _ => e) e0

/-- The budget resolution expression of the `go` branch: a nonzero
`movetime` wins; else a nonzero `wtime`/`btime` yields
`10 * (sqrt(side_to_move_clock) as u32)`; else 8000 ms.  The Rust
expression is `10*f32::sqrt(clock as f32) as u32` — `as` binds tighter than
`*`, so the square root is truncated to an integer BEFORE the factor 10.
`Nat.sqrt` models the truncated `f32` square root; the two agree for every
clock below 2^24 − 1 ms (≈ 4.66 hours), beyond which `f32` rounding can
differ — all theorems below stay far inside that range. -/
def resolve_movetime {Pos : Type} (lib : ChessLib Pos) (e : Engine Pos) : Nat :=
  if e.movetime ≠ 0 then e.movetime
  else if e.wtime ≠ 0 ∨ e.btime ≠ 0 then
    if lib.turn e.board.pos = Player.White then 10 * Nat.sqrt e.wtime
    else 10 * Nat.sqrt e.btime
  else 8000

/-- The `go` branch of `com` up to (and including) the budget resolution:
`com` first calls re_initialize (`re_init`), the parameter loop stores the given
values, then `movetime` is overwritten with the resolved budget. -/
def go_resolve {Pos : Type} (lib : ChessLib Pos) (lvec : List String) (e : Engine Pos) :
    Engine Pos :=
  let e1 := go_set_params lvec (re_init e)
  { e1 with movetime := resolve_movetime lib e1 }

/-- The full `go` branch of `com`: resolve the budget, clear the stop flag,
run the driver. -/
def go_handler {Pos : Type} (lib : ChessLib Pos) (lvec : List String) (e : Engine Pos) :
    Engine Pos × List OutLine :=
  let e2 := go_resolve lib lvec e
  search lib { e2 with search_stopped := false }

/-- Rust `str::parse::<usize>().expect("failed")` from the `setoption`
branch: `none` models the panic on an unparsable value. -/
def parse_usize (s : String) : Option Nat :=
  match string_to_nat? s with
  | some n => if n < 18446744073709551616 then some n else none
  | none => none

/-- The `setoption` branch of `com`: on `setoption name Hash value N` the
table is resized to N MiB (N = 0 included); other shapes print an
unknown-command line and leave the engine unchanged.  `none` models the
panic when the value token is missing or unparsable. -/
def setoption_handler {Pos : Type} (lvec : List String) (e : Engine Pos) :
    Option (Engine Pos) :=
  match lvec.getD 1 "" with
  | "name" =>
    match lvec.getD 2 "" with
    | "Hash" =>
      match lvec.getD 3 "" with
      | "value" =>
        match parse_usize (lvec.getD 4 "") with
        | some n => some (change_hash_size e n)
        | none => none
      | _ => some e
    | _ => some e
  | _ => some e

/-- Recogniser for the final `bestmove` output line. -/
def is_bestmove_line : OutLine → Bool
  | OutLine.bestmove _ => true
  | _ => false

/-- Soundness invariant of the transposition table contents: a non-vacant
best move stored under a hash is a generated move of every position carrying
that hash.  Searches preserve it (collisions aside, i.e. for an injective
Zobrist hash), and the all-vacant initial table satisfies it trivially. -/
def tt_inv {Pos : Type} (lib : ChessLib Pos) (tbl : List TranspositionObject) : Prop :=
  ∀ obj ∈ tbl, obj.best_move ≠ BitMove.null → ∀ p : Pos, lib.zobrist p = obj.hash →
    obj.best_move ∈ lib.generate_moves p

/-- Shape of every score the searcher can produce while the budget is never
exhausted: a multiple of 5 (material and piece-square values are all
multiples of 5), a mate score offset by the u16 half-move counter, or one
of the two initial window bounds.  `-1` has none of these shapes, so the
sentinel score cannot arise spuriously.  (The bounds are spelled as the
literals of `MINIMUM_EVAL`/`MAXIMUM_EVAL`.) -/
def good_score (z : Int) : Prop :=
  z % 5 = 0
  ∨ (∃ x : Nat, x < 65536 ∧ (z = -9999999 + (x : Int) ∨ z = 9999999 - (x : Int)))
  ∨ z = -2147483647 ∨ z = 2147483647

/-- Invariant that every transposition-table entry carries a `good_score`.
The vacant initial table satisfies it (score 0) and stores of loop results
preserve it. -/
def tt_scores_inv (tbl : List TranspositionObject) : Prop :=
  ∀ obj ∈ tbl, good_score obj.score

/-- Concrete library instance used by witnesses and counterexamples: every
position has the single quiet move `5`, White is always to move, the
placement is empty (evaluation 0) and no position is terminal. -/
def libB : ChessLib Nat where
  generate_moves := fun _ => [5]
  apply_move := fun p _ => p + 1
  turn := fun _ => Player.White
  zobrist := fun p => p
  in_check := fun _ => false
  checkmate := fun _ => false
  stalemate := fun _ => false
  gives_check := fun _ _ => false
  is_capture := fun _ => false
  piece_at_sq := fun _ _ => 0
  moves_played := fun _ => 0

/-- Concrete board at position 0 for `libB`-style instances. -/
def bB : Board Nat := { pos := 0, hist := [] }

/-- Concrete engine (fresh 1 MiB table, default depth 20) whose wall-clock
oracle reports the budget exhausted from the first poll on. -/
def eB : Engine Nat where
  board := bB
  search_stopped := true
  active := true
  wtime := 0
  btime := 0
  movetime := 0
  depth := 20
  nodes := 0
  hash_table_size_mb := 1
  transposition_table := List.replicate 65536 TranspositionObject.new
  entries_filled := 0
  oot_oracle := fun _ => true
  ticks := 0

/-- Concrete library instance exercising the evaluator: position 3 is a
stalemate, position 0 is quiet, every other position is a checkmate;
position 2 has Black to move; the half-move counter is `min p 8` (so
positions 8 and 9 agree on it while 6 and 7 differ). -/
def libEval : ChessLib Nat where
  generate_moves := fun _ => []
  apply_move := fun p _ => p
  turn := fun p => if p == 2 then Player.Black else Player.White
  zobrist := fun p => p
  in_check := fun _ => false
  checkmate := fun p => p != 0 && p != 3
  stalemate := fun p => p == 3
  gives_check := fun _ _ => false
  is_capture := fun _ => false
  piece_at_sq := fun _ _ => 0
  moves_played := fun p => min p 8

/-- Concrete library instance exercising the move orderer: three moves of
which `12` is a capture and `11` gives check. -/
def libC : ChessLib Nat :=
  { libB with
    generate_moves := fun _ => [10, 11, 12]
    is_capture := fun m => m == 12
    gives_check := fun _ m => m == 11 }

theorem undo_move_apply_move {Pos : Type} (lib : ChessLib Pos) (b : Board Pos) (mv : BitMove) :
    (Board.apply_move lib b mv).undo_move = b := rfl

mutual

theorem minimax_board {Pos : Type} (lib : ChessLib Pos) (e : Engine Pos) (b : Board Pos)
    (depth : Nat) (alpha beta : Int) (search_extensions : Nat) :
    (minimax lib e b depth alpha beta search_extensions).board = b := by
  rw [minimax]
  dsimp only
  split
  · rfl
  · split
    · rfl
    · split
      · rfl
      · split
        · exact minimax_loop_white_board lib _ b depth alpha beta search_extensions _ _ _
        · exact minimax_loop_black_board lib _ b depth alpha beta search_extensions _ _ _
termination_by (depth, MAX_EXTENSIONS - search_extensions, 1, 0)

theorem child_call_white_board {Pos : Type} (lib : ChessLib Pos) (e : Engine Pos) (b1 : Board Pos)
    (depth : Nat) (alpha beta : Int) (ext : Nat) (mv : BitMove) (hd : 0 < depth) :
    (child_call_white lib e b1 depth alpha beta ext mv hd).board = b1 := by
  rw [child_call_white]
  split
  · exact minimax_board lib _ _ _ _ _ _
  · split
    · exact minimax_board lib _ _ _ _ _ _
    · split
      · rfl
      · exact minimax_board lib _ _ _ _ _ _
termination_by (depth, MAX_EXTENSIONS - ext, 0, 0)

theorem child_call_black_board {Pos : Type} (lib : ChessLib Pos) (e : Engine Pos) (b1 : Board Pos)
    (depth : Nat) (alpha beta : Int) (ext : Nat) (mv : BitMove) (hd : 0 < depth) :
    (child_call_black lib e b1 depth alpha beta ext mv hd).board = b1 := by
  rw [child_call_black]
  split
  · exact minimax_board lib _ _ _ _ _ _
  · split
    · exact minimax_board lib _ _ _ _ _ _
    · split
      · rfl
      · exact minimax_board lib _ _ _ _ _ _
termination_by (depth, MAX_EXTENSIONS - ext, 0, 0)

theorem minimax_loop_white_board {Pos : Type} (lib : ChessLib Pos) (e : Engine Pos) (b : Board Pos)
    (depth : Nat) (alpha beta : Int) (ext : Nat) (best_move : BitMove)
    (moves : List BitMove) (hd : 0 < depth) :
    (minimax_loop_white lib e b depth alpha beta ext best_move moves hd).board = b := by
  match moves with
  | [] => rw [minimax_loop_white]
  | mv :: rest =>
    rw [minimax_loop_white]
    dsimp only
    rw [child_call_white_board lib e (Board.apply_move lib b mv) depth alpha beta ext mv hd,
        undo_move_apply_move]
    split
    · rfl
    · split
      · split
        · rfl
        · exact minimax_loop_white_board lib _ b depth _ beta ext _ rest hd
      · split
        · rfl
        · exact minimax_loop_white_board lib _ b depth _ beta ext _ rest hd
termination_by (depth, MAX_EXTENSIONS - ext, 0, moves.length)

theorem minimax_loop_black_board {Pos : Type} (lib : ChessLib Pos) (e : Engine Pos) (b : Board Pos)
    (depth : Nat) (alpha beta : Int) (ext : Nat) (best_move : BitMove)
    (moves : List BitMove) (hd : 0 < depth) :
    (minimax_loop_black lib e b depth alpha beta ext best_move moves hd).board = b := by
  match moves with
  | [] => rw [minimax_loop_black]
  | mv :: rest =>
    rw [minimax_loop_black]
    dsimp only
    rw [child_call_black_board lib e (Board.apply_move lib b mv) depth alpha beta ext mv hd,
        undo_move_apply_move]
    split
    · rfl
    · split
      · split
        · rfl
        · exact minimax_loop_black_board lib _ b depth alpha _ ext _ rest hd
      · split
        · rfl
        · exact minimax_loop_black_board lib _ b depth alpha _ ext _ rest hd
termination_by (depth, MAX_EXTENSIONS - ext, 0, moves.length)

end

mutual

theorem minimax_eq_NE {Pos : Type} (lib : ChessLib Pos) (e : Engine Pos) (b : Board Pos)
    (depth : Nat) (alpha beta : Int) (search_extensions : Nat)
    (hx8 : MAX_EXTENSIONS ≤ search_extensions) :
    minimax lib e b depth alpha beta search_extensions
      = minimaxNE lib e b depth alpha beta search_extensions := by
  rw [minimax, minimaxNE]
  dsimp only
  split
  · rfl
  · split
    · rfl
    · split
      · rfl
      · split
        · exact minimax_loop_white_eq_NE lib _ b depth alpha beta search_extensions _ _ _ hx8
        · exact minimax_loop_black_eq_NE lib _ b depth alpha beta search_extensions _ _ _ hx8
termination_by (depth, MAX_EXTENSIONS - search_extensions, 1, 0)

theorem child_call_white_eq_NE {Pos : Type} (lib : ChessLib Pos) (e : Engine Pos) (b1 : Board Pos)
    (depth : Nat) (alpha beta : Int) (ext : Nat) (mv : BitMove) (hd : 0 < depth)
    (hx8 : MAX_EXTENSIONS ≤ ext) :
    child_call_white lib e b1 depth alpha beta ext mv hd
      = child_call_whiteNE lib e b1 depth alpha beta ext mv hd := by
  rw [child_call_white, child_call_whiteNE]
  have hnx : ¬((lib.is_capture mv || lib.in_check b1.pos) = true ∧ ext < MAX_EXTENSIONS) := by
    rintro ⟨-, hlt⟩
    omega
  rw [dif_neg hnx]
  split
  · exact minimax_eq_NE lib _ _ _ _ _ _ hx8
  · split
    · rfl
    · exact minimax_eq_NE lib _ _ _ _ _ _ hx8
termination_by (depth, MAX_EXTENSIONS - ext, 0, 0)

theorem child_call_black_eq_NE {Pos : Type} (lib : ChessLib Pos) (e : Engine Pos) (b1 : Board Pos)
    (depth : Nat) (alpha beta : Int) (ext : Nat) (mv : BitMove) (hd : 0 < depth)
    (hx8 : MAX_EXTENSIONS ≤ ext) :
    child_call_black lib e b1 depth alpha beta ext mv hd
      = child_call_blackNE lib e b1 depth alpha beta ext mv hd := by
  rw [child_call_black, child_call_blackNE]
  have hnx : ¬((lib.is_capture mv || lib.in_check b1.pos) = true ∧ ext < MAX_EXTENSIONS) := by
    rintro ⟨-, hlt⟩
    omega
  rw [dif_neg hnx]
  split
  · exact minimax_eq_NE lib _ _ _ _ _ _ hx8
  · split
    · rfl
    · exact minimax_eq_NE lib _ _ _ _ _ _ hx8
termination_by (depth, MAX_EXTENSIONS - ext, 0, 0)

theorem minimax_loop_white_eq_NE {Pos : Type} (lib : ChessLib Pos) (e : Engine Pos) (b : Board Pos)
    (depth : Nat) (alpha beta : Int) (ext : Nat) (best_move : BitMove)
    (moves : List BitMove) (hd : 0 < depth) (hx8 : MAX_EXTENSIONS ≤ ext) :
    minimax_loop_white lib e b depth alpha beta ext best_move moves hd
      = minimax_loop_whiteNE lib e b depth alpha beta ext best_move moves hd := by
  match moves with
  | [] => rw [minimax_loop_white, minimax_loop_whiteNE]
  | mv :: rest =>
    rw [minimax_loop_white, minimax_loop_whiteNE]
    dsimp only
    rw [← child_call_white_eq_NE lib e (Board.apply_move lib b mv) depth alpha beta ext mv hd hx8]
    split
    · rfl
    · split
      · split
        · rfl
        · exact minimax_loop_white_eq_NE lib _ _ depth _ beta ext _ rest hd hx8
      · split
        · rfl
        · exact minimax_loop_white_eq_NE lib _ _ depth _ beta ext _ rest hd hx8
termination_by (depth, MAX_EXTENSIONS - ext, 0, moves.length)

theorem minimax_loop_black_eq_NE {Pos : Type} (lib : ChessLib Pos) (e : Engine Pos) (b : Board Pos)
    (depth : Nat) (alpha beta : Int) (ext : Nat) (best_move : BitMove)
    (moves : List BitMove) (hd : 0 < depth) (hx8 : MAX_EXTENSIONS ≤ ext) :
    minimax_loop_black lib e b depth alpha beta ext best_move moves hd
      = minimax_loop_blackNE lib e b depth alpha beta ext best_move moves hd := by
  match moves with
  | [] => rw [minimax_loop_black, minimax_loop_blackNE]
  | mv :: rest =>
    rw [minimax_loop_black, minimax_loop_blackNE]
    dsimp only
    rw [← child_call_black_eq_NE lib e (Board.apply_move lib b mv) depth alpha beta ext mv hd hx8]
    split
    · rfl
    · split
      · split
        · rfl
        · exact minimax_loop_black_eq_NE lib _ _ depth alpha _ ext _ rest hd hx8
      · split
        · rfl
        · exact minimax_loop_black_eq_NE lib _ _ depth alpha _ ext _ rest hd hx8
termination_by (depth, MAX_EXTENSIONS - ext, 0, moves.length)

end

theorem search_loop_eq_NE {Pos : Type} (lib : ChessLib Pos) (e : Engine Pos)
    (shallow_board : Board Pos) (max_depth depth : Nat) (best_move_info : BitMove × Int)
    (perspective : Int) (out : List OutLine) :
    search_loop lib e shallow_board max_depth depth best_move_info perspective out
      = search_loopNE lib e shallow_board max_depth depth best_move_info perspective out := by
  rw [search_loop, search_loopNE]
  dsimp only
  split
  · rw [← minimax_eq_NE lib _ shallow_board (depth + 1) MINIMUM_EVAL MAXIMUM_EVAL MAX_EXTENSIONS
      (le_refl _)]
    exact search_loop_eq_NE lib _ _ max_depth (depth + 1) _ perspective _
  · rfl
termination_by max_depth - depth

theorem search_eq_NE {Pos : Type} (lib : ChessLib Pos) (e : Engine Pos) :
    search lib e = searchNE lib e := by
  rw [search, searchNE, search_loop_eq_NE]

theorem count_all_pieces_congr {Pos : Type} (lib : ChessLib Pos) (p1 p2 : Pos)
    (hpl : ∀ sq, lib.piece_at_sq p1 sq = lib.piece_at_sq p2 sq) :
    count_all_pieces lib p1 = count_all_pieces lib p2 := by
  unfold count_all_pieces
  rw [List.filter_congr (fun x _ => by rw [hpl x])]

theorem evaluate_congr {Pos : Type} (lib : ChessLib Pos) (p1 p2 : Pos)
    (hpl : ∀ sq, lib.piece_at_sq p1 sq = lib.piece_at_sq p2 sq)
    (ht : lib.turn p1 = lib.turn p2)
    (hcm : lib.checkmate p1 = lib.checkmate p2)
    (hsm : lib.stalemate p1 = lib.stalemate p2)
    (hmp : lib.moves_played p1 = lib.moves_played p2) :
    evaluate lib p1 = evaluate lib p2 := by
  have hstage : game_stage lib p1 = game_stage lib p2 := by
    unfold game_stage
    rw [count_all_pieces_congr lib p1 p2 hpl]
  rw [evaluate, evaluate, hcm, ht, hsm, hmp]
  split
  · rfl
  · split
    · rfl
    · exact List.foldl_ext _ _ 0 (fun acc loc _ => by
        unfold evaluate_square
        rw [hpl loc, hstage])

theorem gen_and_order_moves_perm {Pos : Type} (lib : ChessLib Pos) (b : Board Pos) :
    (gen_and_order_moves lib b).Perm (lib.generate_moves b.pos) := by
  rw [gen_and_order_moves]
  dsimp only
  split
  · exact List.Perm.refl _
  · have h1 : (((lib.generate_moves b.pos).map
        (fun m => (m, move_score lib b.pos m))).mergeSort
          (fun x y => decide (x.2 ≤ y.2))).reverse.Perm
        ((lib.generate_moves b.pos).map (fun m => (m, move_score lib b.pos m))) :=
      (List.reverse_perm _).trans (List.mergeSort_perm _ _)
    have h3 : ∀ l : List BitMove,
        (l.map (fun m => (m, move_score lib b.pos m))).map Prod.fst = l := by
      intro l
      induction l with
      | nil => rfl
      | cons a t ih => simp only [List.map_cons, ih]
    exact (h1.map Prod.fst).trans (List.Perm.of_eq (h3 _))

theorem gen_and_order_moves_length {Pos : Type} (lib : ChessLib Pos) (b : Board Pos) :
    (gen_and_order_moves lib b).length = (lib.generate_moves b.pos).length :=
  (gen_and_order_moves_perm lib b).length_eq

theorem gen_and_order_moves_mem {Pos : Type} (lib : ChessLib Pos) (b : Board Pos)
    {m : BitMove} (hm : m ∈ gen_and_order_moves lib b) : m ∈ lib.generate_moves b.pos :=
  ((gen_and_order_moves_perm lib b).mem_iff).mp hm

theorem gen_and_order_moves_sorted {Pos : Type} (lib : ChessLib Pos) (b : Board Pos) :
    (gen_and_order_moves lib b).Pairwise
      (fun m1 m2 => move_score lib b.pos m2 ≤ move_score lib b.pos m1) := by
  rw [gen_and_order_moves]
  dsimp only
  split
  · rename_i hlen
    cases hg : lib.generate_moves b.pos with
    | nil => simp
    | cons a t =>
      cases t with
      | nil => simp
      | cons c u =>
        rw [hg] at hlen
        simp only [List.length_cons] at hlen
        omega
  · have hsorted : (((lib.generate_moves b.pos).map
        (fun m => (m, move_score lib b.pos m))).mergeSort
          (fun x y => decide (x.2 ≤ y.2))).Pairwise
        (fun x y => (decide (x.2 ≤ y.2)) = true) := by
      apply List.sorted_mergeSort
      · intro x y z hxy hyz
        simp only [decide_eq_true_eq] at *
        omega
      · intro x y
        simp only [Bool.or_eq_true, decide_eq_true_eq]
        omega
    have hrev : (((lib.generate_moves b.pos).map
        (fun m => (m, move_score lib b.pos m))).mergeSort
          (fun x y => decide (x.2 ≤ y.2))).reverse.Pairwise
        (fun x y => y.2 ≤ x.2) := by
      rw [List.pairwise_reverse]
      exact hsorted.imp (fun h => by simpa using h)
    rw [List.pairwise_map]
    refine hrev.imp_of_mem ?_
    intro x y hx hy hxy
    have hx2 : x ∈ (lib.generate_moves b.pos).map (fun m => (m, move_score lib b.pos m)) := by
      have := ((List.reverse_perm _).trans (List.mergeSort_perm _ _)).mem_iff.mp hx
      exact this
    have hy2 : y ∈ (lib.generate_moves b.pos).map (fun m => (m, move_score lib b.pos m)) := by
      have := ((List.reverse_perm _).trans (List.mergeSort_perm _ _)).mem_iff.mp hy
      exact this
    obtain ⟨mx, -, rfl⟩ := List.mem_map.mp hx2
    obtain ⟨my, -, rfl⟩ := List.mem_map.mp hy2
    exact hxy

theorem gen_and_order_moves_short {Pos : Type} (lib : ChessLib Pos) (b : Board Pos)
    (hlen : (lib.generate_moves b.pos).length < 2) :
    gen_and_order_moves lib b = lib.generate_moves b.pos := by
  rw [gen_and_order_moves]
  dsimp only
  rw [if_pos hlen]

theorem transposition_store_find {Pos : Type} (lib : ChessLib Pos) (e : Engine Pos) (p : Pos)
    (score : Int) (best_move : BitMove) (depth : Nat) (hist : List Pos)
    (hlen : e.transposition_table.length = e.hash_table_size_mb * MB_TO_ITEMS)
    (hmb : 0 < e.hash_table_size_mb) :
    transposition_find lib (transposition_store lib e p score best_move depth)
        { pos := p, hist := hist }
      = { hash := lib.zobrist p, score := score, depth := depth, best_move := best_move } := by
  have hC : 0 < e.hash_table_size_mb * MB_TO_ITEMS :=
    Nat.mul_pos hmb (by decide : 0 < MB_TO_ITEMS)
  have hidx : lib.zobrist p % (e.hash_table_size_mb * MB_TO_ITEMS) < e.transposition_table.length := by
    rw [hlen]
    exact Nat.mod_lt _ hC
  rw [transposition_find, transposition_store]
  dsimp only
  split
  all_goals
    rw [List.getD_eq_getElem?_getD, List.getElem?_set_self hidx]
    simp

theorem tt_inv_store {Pos : Type} (lib : ChessLib Pos) (e : Engine Pos) (p : Pos)
    (score : Int) (bm : BitMove) (depth : Nat)
    (hinj : Function.Injective lib.zobrist)
    (hinv : tt_inv lib e.transposition_table)
    (hbm : bm = BitMove.null ∨ bm ∈ lib.generate_moves p) :
    tt_inv lib (transposition_store lib e p score bm depth).transposition_table := by
  intro obj hmem hnull q hq
  rw [transposition_store] at hmem
  dsimp only at hmem
  have htab : ∀ E : Engine Pos, E.transposition_table = e.transposition_table →
      obj ∈ E.transposition_table.set
        (lib.zobrist p % (e.hash_table_size_mb * MB_TO_ITEMS))
        { hash := lib.zobrist p, score := score, depth := depth, best_move := bm } →
      obj ∈ e.transposition_table ∨ obj =
        { hash := lib.zobrist p, score := score, depth := depth, best_move := bm } := by
    intro E hE hm
    rw [hE] at hm
    exact List.mem_or_eq_of_mem_set hm
  have hcases : obj ∈ e.transposition_table ∨ obj =
      { hash := lib.zobrist p, score := score, depth := depth, best_move := bm } := by
    split at hmem
    · exact htab _ rfl hmem
    · exact htab _ rfl hmem
  rcases hcases with hold | hnew
  · exact hinv obj hold hnull q hq
  · subst hnew
    rcases hbm with hb | hb
    · exact absurd hb hnull
    · have hqp : q = p := hinj (by exact hq)
      subst hqp
      exact hb

theorem transposition_find_spec {Pos : Type} (lib : ChessLib Pos) (e : Engine Pos)
    (b : Board Pos) :
    transposition_find lib e b = TranspositionObject.new
      ∨ (transposition_find lib e b ∈ e.transposition_table
          ∧ (transposition_find lib e b).hash = lib.zobrist b.pos) := by
  rw [transposition_find]
  rw [List.getD_eq_getElem?_getD]
  rcases hget : e.transposition_table[lib.zobrist b.pos % (e.hash_table_size_mb * MB_TO_ITEMS)]?
    with _ | obj
  · exact Or.inl (by split <;> rfl)
  · dsimp only [Option.getD]
    split
    · exact Or.inl rfl
    · rename_i h
      push_neg at h
      exact Or.inr ⟨List.getElem?_mem hget, h⟩

mutual

theorem minimax_tt {Pos : Type} (lib : ChessLib Pos) (e : Engine Pos) (b : Board Pos)
    (depth : Nat) (alpha beta : Int) (search_extensions : Nat)
    (hinj : Function.Injective lib.zobrist)
    (hinv : tt_inv lib e.transposition_table) :
    tt_inv lib (minimax lib e b depth alpha beta search_extensions).engine.transposition_table
      ∧ ((minimax lib e b depth alpha beta search_extensions).best_move = BitMove.null
          ∨ (minimax lib e b depth alpha beta search_extensions).best_move
              ∈ lib.generate_moves b.pos) := by
  rw [minimax]
  dsimp only
  split
  · exact ⟨hinv, Or.inl rfl⟩
  · split
    · rename_i hleaf htt
      refine ⟨hinv, ?_⟩
      rcases transposition_find_spec lib e b with hnew | ⟨hmem, hhash⟩
      · rw [hnew] at htt
        exact absurd rfl htt.1
      · exact Or.inr (hinv _ hmem htt.1 b.pos hhash.symm)
    · split
      · exact ⟨hinv, Or.inl rfl⟩
      · split
        · exact minimax_loop_white_tt lib _ b depth alpha beta search_extensions BitMove.null _ _
            hinj hinv (Or.inl rfl) (fun m hm => gen_and_order_moves_mem lib b hm)
        · exact minimax_loop_black_tt lib _ b depth alpha beta search_extensions BitMove.null _ _
            hinj hinv (Or.inl rfl) (fun m hm => gen_and_order_moves_mem lib b hm)
termination_by (depth, MAX_EXTENSIONS - search_extensions, 1, 0)

theorem child_call_white_tt {Pos : Type} (lib : ChessLib Pos) (e : Engine Pos) (b1 : Board Pos)
    (depth : Nat) (alpha beta : Int) (ext : Nat) (mv : BitMove) (hd : 0 < depth)
    (hinj : Function.Injective lib.zobrist)
    (hinv : tt_inv lib e.transposition_table) :
    tt_inv lib (child_call_white lib e b1 depth alpha beta ext mv hd).engine.transposition_table := by
  rw [child_call_white]
  split
  · exact (minimax_tt lib _ _ _ _ _ _ hinj hinv).1
  · split
    · exact (minimax_tt lib _ _ _ _ _ _ hinj hinv).1
    · split
      · exact hinv
      · exact (minimax_tt lib _ _ _ _ _ _ hinj hinv).1
termination_by (depth, MAX_EXTENSIONS - ext, 0, 0)

theorem child_call_black_tt {Pos : Type} (lib : ChessLib Pos) (e : Engine Pos) (b1 : Board Pos)
    (depth : Nat) (alpha beta : Int) (ext : Nat) (mv : BitMove) (hd : 0 < depth)
    (hinj : Function.Injective lib.zobrist)
    (hinv : tt_inv lib e.transposition_table) :
    tt_inv lib (child_call_black lib e b1 depth alpha beta ext mv hd).engine.transposition_table := by
  rw [child_call_black]
  split
  · exact (minimax_tt lib _ _ _ _ _ _ hinj hinv).1
  · split
    · exact (minimax_tt lib _ _ _ _ _ _ hinj hinv).1
    · split
      · exact hinv
      · exact (minimax_tt lib _ _ _ _ _ _ hinj hinv).1
termination_by (depth, MAX_EXTENSIONS - ext, 0, 0)

theorem minimax_loop_white_tt {Pos : Type} (lib : ChessLib Pos) (e : Engine Pos) (b : Board Pos)
    (depth : Nat) (alpha beta : Int) (ext : Nat) (best_move : BitMove)
    (moves : List BitMove) (hd : 0 < depth)
    (hinj : Function.Injective lib.zobrist)
    (hinv : tt_inv lib e.transposition_table)
    (hbm : best_move = BitMove.null ∨ best_move ∈ lib.generate_moves b.pos)
    (hmv : ∀ m ∈ moves, m ∈ lib.generate_moves b.pos) :
    tt_inv lib
        (minimax_loop_white lib e b depth alpha beta ext best_move moves hd).engine.transposition_table
      ∧ ((minimax_loop_white lib e b depth alpha beta ext best_move moves hd).best_move
            = BitMove.null
          ∨ (minimax_loop_white lib e b depth alpha beta ext best_move moves hd).best_move
              ∈ lib.generate_moves b.pos) := by
  match moves with
  | [] =>
    rw [minimax_loop_white]
    exact ⟨tt_inv_store lib e b.pos alpha best_move depth hinj hinv hbm, hbm⟩
  | mv :: rest =>
    rw [minimax_loop_white]
    dsimp only
    rw [child_call_white_board lib e (Board.apply_move lib b mv) depth alpha beta ext mv hd,
        undo_move_apply_move]
    have hct := child_call_white_tt lib e (Board.apply_move lib b mv) depth alpha beta ext mv hd
      hinj hinv
    have hmv0 : mv ∈ lib.generate_moves b.pos := hmv mv (List.mem_cons_self _ _)
    split
    · exact ⟨hct, Or.inl rfl⟩
    · split
      · split
        · exact ⟨tt_inv_store lib _ b.pos _ mv depth hinj hct (Or.inr hmv0), Or.inr hmv0⟩
        · exact minimax_loop_white_tt lib _ b depth _ beta ext mv rest hd hinj hct
            (Or.inr hmv0) (fun m hm => hmv m (List.mem_cons_of_mem _ hm))
      · split
        · exact ⟨tt_inv_store lib _ b.pos _ best_move depth hinj hct hbm, hbm⟩
        · exact minimax_loop_white_tt lib _ b depth _ beta ext best_move rest hd hinj hct
            hbm (fun m hm => hmv m (List.mem_cons_of_mem _ hm))
termination_by (depth, MAX_EXTENSIONS - ext, 0, moves.length)

theorem minimax_loop_black_tt {Pos : Type} (lib : ChessLib Pos) (e : Engine Pos) (b : Board Pos)
    (depth : Nat) (alpha beta : Int) (ext : Nat) (best_move : BitMove)
    (moves : List BitMove) (hd : 0 < depth)
    (hinj : Function.Injective lib.zobrist)
    (hinv : tt_inv lib e.transposition_table)
    (hbm : best_move = BitMove.null ∨ best_move ∈ lib.generate_moves b.pos)
    (hmv : ∀ m ∈ moves, m ∈ lib.generate_moves b.pos) :
    tt_inv lib
        (minimax_loop_black lib e b depth alpha beta ext best_move moves hd).engine.transposition_table
      ∧ ((minimax_loop_black lib e b depth alpha beta ext best_move moves hd).best_move
            = BitMove.null
          ∨ (minimax_loop_black lib e b depth alpha beta ext best_move moves hd).best_move
              ∈ lib.generate_moves b.pos) := by
  match moves with
  | [] =>
    rw [minimax_loop_black]
    exact ⟨tt_inv_store lib e b.pos beta best_move depth hinj hinv hbm, hbm⟩
  | mv :: rest =>
    rw [minimax_loop_black]
    dsimp only
    rw [child_call_black_board lib e (Board.apply_move lib b mv) depth alpha beta ext mv hd,
        undo_move_apply_move]
    have hct := child_call_black_tt lib e (Board.apply_move lib b mv) depth alpha beta ext mv hd
      hinj hinv
    have hmv0 : mv ∈ lib.generate_moves b.pos := hmv mv (List.mem_cons_self _ _)
    split
    · exact ⟨hct, Or.inl rfl⟩
    · split
      · split
        · exact ⟨tt_inv_store lib _ b.pos _ mv depth hinj hct (Or.inr hmv0), Or.inr hmv0⟩
        · exact minimax_loop_black_tt lib _ b depth alpha _ ext mv rest hd hinj hct
            (Or.inr hmv0) (fun m hm => hmv m (List.mem_cons_of_mem _ hm))
      · split
        · exact ⟨tt_inv_store lib _ b.pos _ best_move depth hinj hct hbm, hbm⟩
        · exact minimax_loop_black_tt lib _ b depth alpha _ ext best_move rest hd hinj hct
            hbm (fun m hm => hmv m (List.mem_cons_of_mem _ hm))
termination_by (depth, MAX_EXTENSIONS - ext, 0, moves.length)

end

theorem search_loop_spec {Pos : Type} (lib : ChessLib Pos) (e : Engine Pos)
    (shallow_board : Board Pos) (max_depth depth : Nat) (best_move_info : BitMove × Int)
    (perspective : Int) (out : List OutLine)
    (hinj : Function.Injective lib.zobrist)
    (hinv : tt_inv lib e.transposition_table)
    (hbest : best_move_info.1 = BitMove.null
      ∨ best_move_info.1 ∈ lib.generate_moves shallow_board.pos) :
    ((search_loop lib e shallow_board max_depth depth best_move_info perspective out).2.2.1.1
        = BitMove.null
      ∨ (search_loop lib e shallow_board max_depth depth best_move_info perspective out).2.2.1.1
          ∈ lib.generate_moves shallow_board.pos)
    ∧ (lib.generate_moves shallow_board.pos = [] → best_move_info.1 = BitMove.null →
        (search_loop lib e shallow_board max_depth depth best_move_info perspective out).2.2.1.1
          = BitMove.null)
    ∧ (search_loop lib e shallow_board max_depth depth best_move_info perspective
          out).2.2.2.countP is_bestmove_line
        = out.countP is_bestmove_line := by
  rw [search_loop]
  dsimp only
  split
  · have hmm := minimax_tt lib (out_of_time e).2 shallow_board (depth + 1)
      MINIMUM_EVAL MAXIMUM_EVAL MAX_EXTENSIONS hinj hinv
    have hb := minimax_board lib (out_of_time e).2 shallow_board (depth + 1)
      MINIMUM_EVAL MAXIMUM_EVAL MAX_EXTENSIONS
    rw [hb]
    have hbest2 : (if (out_of_time (minimax lib (out_of_time e).2 shallow_board (depth + 1)
          MINIMUM_EVAL MAXIMUM_EVAL MAX_EXTENSIONS).engine).1 = true then best_move_info
        else ((minimax lib (out_of_time e).2 shallow_board (depth + 1)
          MINIMUM_EVAL MAXIMUM_EVAL MAX_EXTENSIONS).best_move,
          (minimax lib (out_of_time e).2 shallow_board (depth + 1)
            MINIMUM_EVAL MAXIMUM_EVAL MAX_EXTENSIONS).score)).1 = BitMove.null
      ∨ (if (out_of_time (minimax lib (out_of_time e).2 shallow_board (depth + 1)
          MINIMUM_EVAL MAXIMUM_EVAL MAX_EXTENSIONS).engine).1 = true then best_move_info
        else ((minimax lib (out_of_time e).2 shallow_board (depth + 1)
          MINIMUM_EVAL MAXIMUM_EVAL MAX_EXTENSIONS).best_move,
          (minimax lib (out_of_time e).2 shallow_board (depth + 1)
            MINIMUM_EVAL MAXIMUM_EVAL MAX_EXTENSIONS).score)).1
          ∈ lib.generate_moves shallow_board.pos := by
      split
      · exact hbest
      · exact hmm.2
    have IH := fun out2 : List OutLine =>
      search_loop_spec lib
        (out_of_time (minimax lib (out_of_time e).2 shallow_board (depth + 1)
          MINIMUM_EVAL MAXIMUM_EVAL MAX_EXTENSIONS).engine).2
        shallow_board max_depth (depth + 1) _ perspective out2 hinj hmm.1 hbest2
    refine ⟨(IH _).1, ?_, ?_⟩
    · intro hgen hnull
      refine (IH _).2.1 hgen ?_
      rcases hbest2 with h0 | h0
      · exact h0
      · rw [hgen] at h0
        simp at h0
    · rw [(IH _).2.2, List.countP_append]
      simp [is_bestmove_line]
  · exact ⟨hbest, fun _ h => h, rfl⟩
termination_by max_depth - depth

theorem search_spec {Pos : Type} (lib : ChessLib Pos) (e : Engine Pos)
    (hinj : Function.Injective lib.zobrist)
    (hinv : tt_inv lib e.transposition_table) :
    ∃ m, (search lib e).2.getLast? = some (OutLine.bestmove m)
      ∧ (m = BitMove.null ∨ m ∈ lib.generate_moves e.board.pos)
      ∧ (lib.generate_moves e.board.pos = [] → m = BitMove.null)
      ∧ (search lib e).2.countP is_bestmove_line = 1 := by
  rw [search]
  dsimp only
  have hs := search_loop_spec lib e (Board.shallow_clone e.board) e.depth 0 (BitMove.null, 0)
    (if lib.turn e.board.pos = Player.White then 1 else -1) [] hinj hinv (Or.inl rfl)
  refine ⟨_, List.getLast?_concat _, hs.1, fun hgen => hs.2.1 hgen rfl, ?_⟩
  rw [List.countP_append, hs.2.2]
  simp [is_bestmove_line]

theorem minimax_deadline_sentinel {Pos : Type} (lib : ChessLib Pos) (e : Engine Pos)
    (b : Board Pos) (depth : Nat) (alpha beta : Int) (search_extensions : Nat)
    (hleaf : ¬(depth = 0 ∨ gen_and_order_moves lib b = []))
    (htt : ¬((transposition_find lib e b).best_move ≠ BitMove.null
        ∧ depth ≤ (transposition_find lib e b).depth))
    (ho : e.oot_oracle e.ticks = true) :
    minimax lib e b depth alpha beta search_extensions
      = ⟨{ e with ticks := e.ticks + 1 }, b, BitMove.null, -1⟩ := by
  rw [minimax]
  dsimp only
  rw [dif_neg hleaf, if_neg htt, if_pos (show (out_of_time e).1 = true from ho)]
  rfl

theorem minimax_loop_white_sentinel {Pos : Type} (lib : ChessLib Pos) (e : Engine Pos)
    (b : Board Pos) (depth : Nat) (alpha beta : Int) (ext : Nat) (best_move mv : BitMove)
    (rest : List BitMove) (hd : 0 < depth)
    (hsent : (child_call_white lib e (Board.apply_move lib b mv) depth alpha beta ext mv
          hd).best_move = BitMove.null
      ∧ (child_call_white lib e (Board.apply_move lib b mv) depth alpha beta ext mv hd).score
          = -1) :
    minimax_loop_white lib e b depth alpha beta ext best_move (mv :: rest) hd
      = ⟨(child_call_white lib e (Board.apply_move lib b mv) depth alpha beta ext mv hd).engine,
          b, BitMove.null, -1⟩ := by
  rw [minimax_loop_white]
  dsimp only
  rw [child_call_white_board lib e (Board.apply_move lib b mv) depth alpha beta ext mv hd,
      undo_move_apply_move]
  rw [if_pos hsent]

theorem minimax_loop_black_sentinel {Pos : Type} (lib : ChessLib Pos) (e : Engine Pos)
    (b : Board Pos) (depth : Nat) (alpha beta : Int) (ext : Nat) (best_move mv : BitMove)
    (rest : List BitMove) (hd : 0 < depth)
    (hsent : (child_call_black lib e (Board.apply_move lib b mv) depth alpha beta ext mv
          hd).best_move = BitMove.null
      ∧ (child_call_black lib e (Board.apply_move lib b mv) depth alpha beta ext mv hd).score
          = -1) :
    minimax_loop_black lib e b depth alpha beta ext best_move (mv :: rest) hd
      = ⟨(child_call_black lib e (Board.apply_move lib b mv) depth alpha beta ext mv hd).engine,
          b, BitMove.null, -1⟩ := by
  rw [minimax_loop_black]
  dsimp only
  rw [child_call_black_board lib e (Board.apply_move lib b mv) depth alpha beta ext mv hd,
      undo_move_apply_move]
  rw [if_pos hsent]
theorem good_score_ne_neg_one {z : Int} (h : good_score z) : z ≠ -1 := by
  rcases h with h | ⟨x, hx, h | h⟩ | h | h <;> omega

theorem good_score_sub_two_ne_neg_one {z : Int} (h : good_score z) : z - 2 ≠ -1 := by
  rcases h with h | ⟨x, hx, h | h⟩ | h | h <;> omega

theorem good_score_add_two_ne_neg_one {z : Int} (h : good_score z) : z + 2 ≠ -1 := by
  rcases h with h | ⟨x, hx, h | h⟩ | h | h <;> omega

theorem getD_mem_or_default {α : Type} (l : List α) (i : Nat) (d : α) :
    l.getD i d ∈ l ∨ l.getD i d = d := by
  rw [List.getD_eq_getElem?_getD]
  rcases h : l[i]? with _ | v
  · exact Or.inr rfl
  · exact Or.inl (List.getElem?_mem h)

theorem piece_values_getD_mod5 (i : Nat) : PIECE_VALUES.getD i 0 % 5 = 0 := by
  have hall : ∀ w ∈ PIECE_VALUES, w % 5 = 0 := by decide
  rcases getD_mem_or_default PIECE_VALUES i 0 with hm | hd
  · exact hall _ hm
  · rw [hd]
    decide

theorem pst_lookup_mod5 (stage ptype idx : Nat) : pst_lookup stage ptype idx % 5 = 0 := by
  have hall : ∀ u1 ∈ PIECE_TABLES_ALL, ∀ u2 ∈ u1, ∀ w ∈ u2, w % 5 = 0 := by decide
  rw [pst_lookup]
  rcases getD_mem_or_default ((PIECE_TABLES_ALL.getD stage []).getD ptype []) idx 0 with h3 | h3
  · rcases getD_mem_or_default (PIECE_TABLES_ALL.getD stage []) ptype [] with h2 | h2
    · rcases getD_mem_or_default PIECE_TABLES_ALL stage [] with h1 | h1
      · exact hall _ h1 _ h2 _ h3
      · rw [h1] at h2
        cases h2
    · rw [h2] at h3
      cases h3
  · rw [h3]
    decide

theorem evaluate_square_mod5 {Pos : Type} (lib : ChessLib Pos) (p : Pos) (acc : Int)
    (location : Nat) (hacc : acc % 5 = 0) :
    evaluate_square lib p acc location % 5 = 0 := by
  rw [evaluate_square]
  dsimp only
  have h1 := piece_values_getD_mod5 (lib.piece_at_sq p location % 8)
  have h2 := pst_lookup_mod5 (game_stage lib p) (lib.piece_at_sq p location % 8)
    (63 - location)
  have h3 := pst_lookup_mod5 (game_stage lib p) (lib.piece_at_sq p location % 8) location
  split_ifs <;> omega

theorem foldl_evaluate_square_mod5 {Pos : Type} (lib : ChessLib Pos) (p : Pos)
    (l : List Nat) (acc : Int) (hacc : acc % 5 = 0) :
    (l.foldl (evaluate_square lib p) acc) % 5 = 0 := by
  induction l generalizing acc with
  | nil => exact hacc
  | cons a t ih => exact ih _ (evaluate_square_mod5 lib p acc a hacc)

theorem evaluate_good {Pos : Type} (lib : ChessLib Pos) (p : Pos)
    (hmp : lib.moves_played p < 65536) :
    good_score (evaluate lib p) := by
  rw [evaluate]
  split
  · split
    · exact Or.inr (Or.inl ⟨lib.moves_played p, hmp, Or.inl rfl⟩)
    · exact Or.inr (Or.inl ⟨lib.moves_played p, hmp, Or.inr rfl⟩)
  · split
    · exact Or.inl (by decide)
    · exact Or.inl (foldl_evaluate_square_mod5 lib p _ 0 (by decide))

theorem tt_scores_store {Pos : Type} (lib : ChessLib Pos) (e : Engine Pos) (p : Pos)
    (score : Int) (bm : BitMove) (depth : Nat)
    (hinv : tt_scores_inv e.transposition_table)
    (hsc : good_score score) :
    tt_scores_inv (transposition_store lib e p score bm depth).transposition_table := by
  intro obj hmem
  rw [transposition_store] at hmem
  dsimp only at hmem
  have htab : ∀ E : Engine Pos, E.transposition_table = e.transposition_table →
      obj ∈ E.transposition_table.set
        (lib.zobrist p % (e.hash_table_size_mb * MB_TO_ITEMS))
        { hash := lib.zobrist p, score := score, depth := depth, best_move := bm } →
      obj ∈ e.transposition_table ∨ obj =
        { hash := lib.zobrist p, score := score, depth := depth, best_move := bm } := by
    intro E hE hm
    rw [hE] at hm
    exact List.mem_or_eq_of_mem_set hm
  have hcases : obj ∈ e.transposition_table ∨ obj =
      { hash := lib.zobrist p, score := score, depth := depth, best_move := bm } := by
    split at hmem
    · exact htab _ rfl hmem
    · exact htab _ rfl hmem
  rcases hcases with hold | hnew
  · exact hinv obj hold
  · rw [hnew]
    exact hsc

theorem transposition_store_oot {Pos : Type} (lib : ChessLib Pos) (e : Engine Pos) (p : Pos)
    (score : Int) (bm : BitMove) (depth : Nat) :
    (transposition_store lib e p score bm depth).oot_oracle = e.oot_oracle := by
  rw [transposition_store]
  dsimp only
  split <;> rfl

mutual

theorem minimax_good {Pos : Type} (lib : ChessLib Pos) (e : Engine Pos) (b : Board Pos)
    (depth : Nat) (alpha beta : Int) (search_extensions : Nat)
    (ha : good_score alpha) (hb : good_score beta)
    (hinv : tt_scores_inv e.transposition_table)
    (horc : ∀ t, e.oot_oracle t = false)
    (hmp : ∀ q : Pos, lib.moves_played q < 65536) :
    tt_scores_inv (minimax lib e b depth alpha beta search_extensions).engine.transposition_table
    ∧ (minimax lib e b depth alpha beta search_extensions).engine.oot_oracle = e.oot_oracle
    ∧ good_score (minimax lib e b depth alpha beta search_extensions).score := by
  rw [minimax]
  dsimp only
  split
  · exact ⟨hinv, rfl, evaluate_good lib b.pos (hmp b.pos)⟩
  · split
    · refine ⟨hinv, rfl, ?_⟩
      rcases transposition_find_spec lib e b with hnew | ⟨hmem, hhash⟩
      · rw [hnew]
        exact Or.inl (show (0 : Int) % 5 = 0 from by decide)
      · exact hinv _ hmem
    · split
      · rename_i ho
        have hcontr : e.oot_oracle e.ticks = true := ho
        rw [horc e.ticks] at hcontr
        cases hcontr
      · split
        · exact minimax_loop_white_good lib _ b depth alpha beta search_extensions
            BitMove.null _ _ ha hb hinv horc hmp
        · exact minimax_loop_black_good lib _ b depth alpha beta search_extensions
            BitMove.null _ _ ha hb hinv horc hmp
termination_by (depth, MAX_EXTENSIONS - search_extensions, 1, 0)

theorem child_call_white_good {Pos : Type} (lib : ChessLib Pos) (e : Engine Pos) (b1 : Board Pos)
    (depth : Nat) (alpha beta : Int) (ext : Nat) (mv : BitMove) (hd : 0 < depth)
    (ha : good_score alpha) (hb : good_score beta)
    (hinv : tt_scores_inv e.transposition_table)
    (horc : ∀ t, e.oot_oracle t = false)
    (hmp : ∀ q : Pos, lib.moves_played q < 65536) :
    tt_scores_inv
        (child_call_white lib e b1 depth alpha beta ext mv hd).engine.transposition_table
    ∧ (child_call_white lib e b1 depth alpha beta ext mv hd).engine.oot_oracle = e.oot_oracle
    ∧ (good_score (child_call_white lib e b1 depth alpha beta ext mv hd).score
        ∨ (child_call_white lib e b1 depth alpha beta ext mv hd).score = alpha - 2) := by
  rw [child_call_white]
  split
  · have h := minimax_good lib e b1 depth alpha beta (ext + 1) ha hb hinv horc hmp
    exact ⟨h.1, h.2.1, Or.inl h.2.2⟩
  · split
    · have h := minimax_good lib e b1 (depth - 1) alpha beta ext ha hb hinv horc hmp
      exact ⟨h.1, h.2.1, Or.inl h.2.2⟩
    · split
      · exact ⟨hinv, rfl, Or.inr rfl⟩
      · have h := minimax_good lib e b1 (depth - 1) alpha beta ext ha hb hinv horc hmp
        exact ⟨h.1, h.2.1, Or.inl h.2.2⟩
termination_by (depth, MAX_EXTENSIONS - ext, 0, 0)

theorem child_call_black_good {Pos : Type} (lib : ChessLib Pos) (e : Engine Pos) (b1 : Board Pos)
    (depth : Nat) (alpha beta : Int) (ext : Nat) (mv : BitMove) (hd : 0 < depth)
    (ha : good_score alpha) (hb : good_score beta)
    (hinv : tt_scores_inv e.transposition_table)
    (horc : ∀ t, e.oot_oracle t = false)
    (hmp : ∀ q : Pos, lib.moves_played q < 65536) :
    tt_scores_inv
        (child_call_black lib e b1 depth alpha beta ext mv hd).engine.transposition_table
    ∧ (child_call_black lib e b1 depth alpha beta ext mv hd).engine.oot_oracle = e.oot_oracle
    ∧ (good_score (child_call_black lib e b1 depth alpha beta ext mv hd).score
        ∨ (child_call_black lib e b1 depth alpha beta ext mv hd).score = beta + 2) := by
  rw [child_call_black]
  split
  · have h := minimax_good lib e b1 depth alpha beta (ext + 1) ha hb hinv horc hmp
    exact ⟨h.1, h.2.1, Or.inl h.2.2⟩
  · split
    · have h := minimax_good lib e b1 (depth - 1) alpha beta ext ha hb hinv horc hmp
      exact ⟨h.1, h.2.1, Or.inl h.2.2⟩
    · split
      · exact ⟨hinv, rfl, Or.inr rfl⟩
      · have h := minimax_good lib e b1 (depth - 1) alpha beta ext ha hb hinv horc hmp
        exact ⟨h.1, h.2.1, Or.inl h.2.2⟩
termination_by (depth, MAX_EXTENSIONS - ext, 0, 0)

theorem minimax_loop_white_good {Pos : Type} (lib : ChessLib Pos) (e : Engine Pos)
    (b : Board Pos) (depth : Nat) (alpha beta : Int) (ext : Nat) (best_move : BitMove)
    (moves : List BitMove) (hd : 0 < depth)
    (ha : good_score alpha) (hb : good_score beta)
    (hinv : tt_scores_inv e.transposition_table)
    (horc : ∀ t, e.oot_oracle t = false)
    (hmp : ∀ q : Pos, lib.moves_played q < 65536) :
    tt_scores_inv
        (minimax_loop_white lib e b depth alpha beta ext best_move moves
          hd).engine.transposition_table
    ∧ (minimax_loop_white lib e b depth alpha beta ext best_move moves hd).engine.oot_oracle
        = e.oot_oracle
    ∧ good_score (minimax_loop_white lib e b depth alpha beta ext best_move moves hd).score := by
  match moves with
  | [] =>
    rw [minimax_loop_white]
    exact ⟨tt_scores_store lib e b.pos alpha best_move depth hinv ha,
      transposition_store_oot lib e b.pos alpha best_move depth, ha⟩
  | mv :: rest =>
    rw [minimax_loop_white]
    dsimp only
    have hc := child_call_white_good lib e (Board.apply_move lib b mv) depth alpha beta ext mv
      hd ha hb hinv horc hmp
    split
    · rename_i hsent
      rcases hc.2.2 with hg | he
      · exact absurd hsent.2 (good_score_ne_neg_one hg)
      · rw [he] at hsent
        exact absurd hsent.2 (good_score_sub_two_ne_neg_one ha)
    · split
      · rename_i hlt
        have hgood2 : good_score
            (child_call_white lib e (Board.apply_move lib b mv) depth alpha beta ext mv
              hd).score := by
          rcases hc.2.2 with hg | he
          · exact hg
          · rw [he] at hlt
            omega
        split
        · exact ⟨tt_scores_store lib _ _ _ mv depth hc.1 hgood2,
            (transposition_store_oot lib _ _ _ mv depth).trans hc.2.1, hgood2⟩
        · have IH := minimax_loop_white_good lib _
            ((child_call_white lib e (Board.apply_move lib b mv) depth alpha beta ext mv
              hd).board.undo_move) depth _ beta ext mv rest hd hgood2 hb
            hc.1 (fun t => by rw [hc.2.1]; exact horc t) hmp
          exact ⟨IH.1, IH.2.1.trans hc.2.1, IH.2.2⟩
      · split
        · exact ⟨tt_scores_store lib _ _ _ best_move depth hc.1 ha,
            (transposition_store_oot lib _ _ _ best_move depth).trans hc.2.1, ha⟩
        · have IH := minimax_loop_white_good lib _
            ((child_call_white lib e (Board.apply_move lib b mv) depth alpha beta ext mv
              hd).board.undo_move) depth alpha beta ext best_move rest hd ha
            hb hc.1 (fun t => by rw [hc.2.1]; exact horc t) hmp
          exact ⟨IH.1, IH.2.1.trans hc.2.1, IH.2.2⟩
termination_by (depth, MAX_EXTENSIONS - ext, 0, moves.length)

theorem minimax_loop_black_good {Pos : Type} (lib : ChessLib Pos) (e : Engine Pos)
    (b : Board Pos) (depth : Nat) (alpha beta : Int) (ext : Nat) (best_move : BitMove)
    (moves : List BitMove) (hd : 0 < depth)
    (ha : good_score alpha) (hb : good_score beta)
    (hinv : tt_scores_inv e.transposition_table)
    (horc : ∀ t, e.oot_oracle t = false)
    (hmp : ∀ q : Pos, lib.moves_played q < 65536) :
    tt_scores_inv
        (minimax_loop_black lib e b depth alpha beta ext best_move moves
          hd).engine.transposition_table
    ∧ (minimax_loop_black lib e b depth alpha beta ext best_move moves hd).engine.oot_oracle
        = e.oot_oracle
    ∧ good_score (minimax_loop_black lib e b depth alpha beta ext best_move moves hd).score := by
  match moves with
  | [] =>
    rw [minimax_loop_black]
    exact ⟨tt_scores_store lib e b.pos beta best_move depth hinv hb,
      transposition_store_oot lib e b.pos beta best_move depth, hb⟩
  | mv :: rest =>
    rw [minimax_loop_black]
    dsimp only
    have hc := child_call_black_good lib e (Board.apply_move lib b mv) depth alpha beta ext mv
      hd ha hb hinv horc hmp
    split
    · rename_i hsent
      rcases hc.2.2 with hg | he
      · exact absurd hsent.2 (good_score_ne_neg_one hg)
      · rw [he] at hsent
        exact absurd hsent.2 (good_score_add_two_ne_neg_one hb)
    · split
      · rename_i hlt
        have hgood2 : good_score
            (child_call_black lib e (Board.apply_move lib b mv) depth alpha beta ext mv
              hd).score := by
          rcases hc.2.2 with hg | he
          · exact hg
          · rw [he] at hlt
            omega
        split
        · exact ⟨tt_scores_store lib _ _ _ mv depth hc.1 hgood2,
            (transposition_store_oot lib _ _ _ mv depth).trans hc.2.1, hgood2⟩
        · have IH := minimax_loop_black_good lib _
            ((child_call_black lib e (Board.apply_move lib b mv) depth alpha beta ext mv
              hd).board.undo_move) depth alpha _ ext mv rest hd ha hgood2
            hc.1 (fun t => by rw [hc.2.1]; exact horc t) hmp
          exact ⟨IH.1, IH.2.1.trans hc.2.1, IH.2.2⟩
      · split
        · exact ⟨tt_scores_store lib _ _ _ best_move depth hc.1 hb,
            (transposition_store_oot lib _ _ _ best_move depth).trans hc.2.1, hb⟩
        · have IH := minimax_loop_black_good lib _
            ((child_call_black lib e (Board.apply_move lib b mv) depth alpha beta ext mv
              hd).board.undo_move) depth alpha beta ext best_move rest hd ha
            hb hc.1 (fun t => by rw [hc.2.1]; exact horc t) hmp
          exact ⟨IH.1, IH.2.1.trans hc.2.1, IH.2.2⟩
termination_by (depth, MAX_EXTENSIONS - ext, 0, moves.length)

end

/-- C3: for every engine state, position, depth, window and extensions
count, `minimax` returns the board exactly as it received it — every applied
move is undone on every return path (leaf, TT cutoff, deadline sentinel,
futility placeholder, beta cutoff and loop exit). -/
theorem claim_C3_board_preserved {Pos : Type} (lib : ChessLib Pos) (e : Engine Pos)
    (b : Board Pos) (depth : Nat) (alpha beta : Int) (search_extensions : Nat) :
    (minimax lib e b depth alpha beta search_extensions).board = b :=
  minimax_board lib e b depth alpha beta search_extensions

/-- C4: `evaluate` returns `-9_999_999 + half_moves_played` for a checkmate
with White to move and `9_999_999 - half_moves_played` with Black to move,
0 for a (non-checkmate) stalemate; since the pleco half-move counter is a u16
(< 65536), the mate scores are ≤ −9_000_000 resp. ≥ +9_000_000. -/
theorem claim_C4_evaluate_terminal {Pos : Type} (lib : ChessLib Pos) (p : Pos) :
    (lib.checkmate p = true →
      evaluate lib p = if lib.turn p = Player.White then -9999999 + (lib.moves_played p : Int)
        else 9999999 - (lib.moves_played p : Int))
    ∧ (lib.checkmate p = false → lib.stalemate p = true → evaluate lib p = 0)
    ∧ (lib.checkmate p = true → lib.turn p = Player.White → lib.moves_played p < 65536 →
        evaluate lib p ≤ -9000000)
    ∧ (lib.checkmate p = true → lib.turn p = Player.Black → lib.moves_played p < 65536 →
        9000000 ≤ evaluate lib p) := by
  refine ⟨?_, ?_, ?_, ?_⟩
  · intro hcm
    rw [evaluate, if_pos hcm]
  · intro hcm hsm
    rw [evaluate, if_neg (by rw [hcm]; exact Bool.false_ne_true), if_pos hsm]
  · intro hcm ht hmp
    rw [evaluate, if_pos hcm, if_pos ht]
    have : (lib.moves_played p : Int) < 65536 := by exact_mod_cast hmp
    omega
  · intro hcm ht hmp
    have ht2 : ¬(lib.turn p = Player.White) := by
      rw [ht]
      intro hcontra
      cases hcontra
    rw [evaluate, if_pos hcm, if_neg ht2]
    have : (lib.moves_played p : Int) < 65536 := by exact_mod_cast hmp
    omega

/-- C4 witness: in the concrete instance, position 1 is a White-to-move
checkmate after 1 half-move, position 2 a Black-to-move checkmate, and
position 3 a stalemate. -/
theorem claim_C4_witness :
    libEval.checkmate 1 = true
    ∧ evaluate libEval 1 = (if libEval.turn 1 = Player.White
        then -9999999 + (libEval.moves_played 1 : Int)
        else 9999999 - (libEval.moves_played 1 : Int))
    ∧ evaluate libEval 1 ≤ -9000000
    ∧ 9000000 ≤ evaluate libEval 2
    ∧ evaluate libEval 3 = 0 :=
  ⟨by decide,
   (claim_C4_evaluate_terminal libEval 1).1 (by decide),
   (claim_C4_evaluate_terminal libEval 1).2.2.1 (by decide) (by decide) (by decide),
   (claim_C4_evaluate_terminal libEval 2).2.2.2 (by decide) (by decide) (by decide),
   (claim_C4_evaluate_terminal libEval 3).2.1 (by decide) (by decide)⟩

/-- C5 (amended): `evaluate` is a pure function of the position (the model
returns a score without mutating anything), and its value is determined by
piece placement, side to move, the checkmate/stalemate flags, and the
half-move counter.  (The original claim — placement and side to move alone —
fails because checkmate scores embed `moves_played()`.) -/
theorem claim_C5_evaluate_congruence {Pos : Type} (lib : ChessLib Pos) (p1 p2 : Pos)
    (hpl : ∀ sq, lib.piece_at_sq p1 sq = lib.piece_at_sq p2 sq)
    (ht : lib.turn p1 = lib.turn p2)
    (hcm : lib.checkmate p1 = lib.checkmate p2)
    (hsm : lib.stalemate p1 = lib.stalemate p2)
    (hmp : lib.moves_played p1 = lib.moves_played p2) :
    evaluate lib p1 = evaluate lib p2 :=
  evaluate_congr lib p1 p2 hpl ht hcm hsm hmp

/-- C5 counterexample: positions 6 and 7 of the concrete instance agree on
piece placement (identical placement functions) and on side to move, yet
evaluate to different scores, because both are checkmates and their
half-move counters differ — refuting dependence on placement and side to
move only. -/
theorem claim_C5_counterexample :
    libEval.piece_at_sq 6 = libEval.piece_at_sq 7
    ∧ libEval.turn 6 = libEval.turn 7
    ∧ evaluate libEval 6 = -9999993
    ∧ evaluate libEval 7 = -9999992
    ∧ evaluate libEval 6 ≠ evaluate libEval 7 := by
  refine ⟨rfl, by decide, by decide, by decide, by decide⟩

/-- C5 witness: positions 8 and 9 agree on placement, side to move, the
terminal flags and the half-move counter, and evaluate equal. -/
theorem claim_C5_witness :
    libEval.turn 8 = libEval.turn 9
    ∧ libEval.moves_played 8 = libEval.moves_played 9
    ∧ evaluate libEval 8 = evaluate libEval 9 :=
  ⟨by decide, by decide,
   claim_C5_evaluate_congruence libEval 8 9 (fun _ => rfl) (by decide) (by decide)
     (by decide) (by decide)⟩

/-- C6: with the extensions count seeded at `MAX_EXTENSIONS` (as the driver
does at every root call), the capture/check extension branch can never be
taken in any reachable recursive call — the searcher coincides with the
variant from which the extension branch has been deleted, and so does the
whole driver. -/
theorem claim_C6_extensions_never_fire {Pos : Type} (lib : ChessLib Pos) (e : Engine Pos)
    (b : Board Pos) (depth : Nat) (alpha beta : Int) (search_extensions : Nat)
    (hx8 : MAX_EXTENSIONS ≤ search_extensions) :
    minimax lib e b depth alpha beta search_extensions
        = minimaxNE lib e b depth alpha beta search_extensions
    ∧ search lib e = searchNE lib e :=
  ⟨minimax_eq_NE lib e b depth alpha beta search_extensions hx8, search_eq_NE lib e⟩

/-- C6 witness: the equivalence instantiated at the seed value used by the driver. -/
theorem claim_C6_witness :
    MAX_EXTENSIONS ≤ MAX_EXTENSIONS
    ∧ minimax libB eB bB 1 0 0 MAX_EXTENSIONS = minimaxNE libB eB bB 1 0 0 MAX_EXTENSIONS
    ∧ search libB eB = searchNE libB eB :=
  ⟨le_refl _,
   (claim_C6_extensions_never_fire libB eB bB 1 0 0 MAX_EXTENSIONS (le_refl _)).1,
   (claim_C6_extensions_never_fire libB eB bB 1 0 0 MAX_EXTENSIONS (le_refl _)).2⟩

/-- C7 (amended): the resolved budget is the nonzero `movetime` when one was
given; else, when a nonzero `wtime`/`btime` was given,
`10 * ⌊sqrt(side-to-move clock in ms)⌋` — the truncation happens BEFORE the
factor 10, not after as the claim formula `⌊10 × √clock⌋` states; else 8000 ms.
A value given as 0 counts as not given (the parser stores 0 for absent
fields and the resolver tests `≠ 0`).  The last conjunct ties the resolver
to the parsed `go` command. -/
theorem claim_C7_time_budget {Pos : Type} (lib : ChessLib Pos) (e : Engine Pos)
    (lvec : List String) :
    (e.movetime ≠ 0 → resolve_movetime lib e = e.movetime)
    ∧ (e.movetime = 0 → (e.wtime ≠ 0 ∨ e.btime ≠ 0) → lib.turn e.board.pos = Player.White →
        resolve_movetime lib e = 10 * Nat.sqrt e.wtime)
    ∧ (e.movetime = 0 → (e.wtime ≠ 0 ∨ e.btime ≠ 0) → lib.turn e.board.pos = Player.Black →
        resolve_movetime lib e = 10 * Nat.sqrt e.btime)
    ∧ (e.movetime = 0 → e.wtime = 0 → e.btime = 0 → resolve_movetime lib e = 8000)
    ∧ (go_resolve lib lvec e).movetime
        = resolve_movetime lib (go_set_params lvec (re_init e)) := by
  refine ⟨?_, ?_, ?_, ?_, rfl⟩
  · intro hmt
    rw [resolve_movetime, if_pos hmt]
  · intro hmt hwb ht
    rw [resolve_movetime, if_neg (by simp [hmt]), if_pos hwb, if_pos ht]
  · intro hmt hwb ht
    have ht2 : ¬(lib.turn e.board.pos = Player.White) := by
      rw [ht]
      intro hcontra
      cases hcontra
    rw [resolve_movetime, if_neg (by simp [hmt]), if_pos hwb, if_neg ht2]
  · intro hmt hw hb
    rw [resolve_movetime, if_neg (by simp [hmt]), if_neg (by simp [hw, hb])]

/-- C7 counterexample: for `go wtime 2` with White to move the code resolves
a budget of `10 * ⌊√2⌋ = 10` ms, while the claimed `⌊10 × √2⌋ = ⌊√200⌋ = 14`
ms differs (`Nat.sqrt (100 * w)` is exactly `⌊10 × √w⌋`). -/
theorem claim_C7_counterexample :
    (go_resolve libB ["go", "wtime", "2"] eB).movetime = 10
    ∧ Nat.sqrt (100 * 2) = 14
    ∧ (10 : Nat) ≠ 14 := by
  have hs2 : Nat.sqrt 2 = 1 := (Nat.eq_sqrt.mpr (by omega)).symm
  have hs200 : Nat.sqrt (100 * 2) = 14 := (Nat.eq_sqrt.mpr (by omega)).symm
  refine ⟨?_, hs200, by decide⟩
  show resolve_movetime libB (go_set_params ["go", "wtime", "2"] (re_init eB)) = 10
  rw [resolve_movetime, if_neg (by decide), if_pos (Or.inl (by decide)), if_pos (by decide),
    show (go_set_params ["go", "wtime", "2"] (re_init eB)).wtime = 2 from by decide, hs2]

/-- C7 witness: the four resolution cases at concrete engines (budget 77
given; White clock 2 → 10 ms; Black to move with clock 9 → 30 ms; nothing
given → 8000 ms). -/
theorem claim_C7_witness :
    resolve_movetime libB { eB with movetime := 77 } = 77
    ∧ resolve_movetime libB { eB with wtime := 2 } = 10 * Nat.sqrt 2
    ∧ resolve_movetime libEval { eB with board := { pos := 2, hist := [] }, btime := 9 }
        = 10 * Nat.sqrt 9
    ∧ resolve_movetime libB eB = 8000 :=
  ⟨(claim_C7_time_budget libB { eB with movetime := 77 } []).1 (by decide),
   (claim_C7_time_budget libB { eB with wtime := 2 } []).2.1 (by decide)
     (Or.inl (by decide)) (by decide),
   (claim_C7_time_budget libEval { eB with board := { pos := 2, hist := [] }, btime := 9 }
       []).2.2.1 (by decide) (Or.inr (by decide)) (by decide),
   (claim_C7_time_budget libB eB []).2.2.2.1 (by decide) (by decide) (by decide)⟩

/-- C8: the move orderer returns a list of the same length that is a
permutation of `generate_moves()`, sorted descending by the static key
(capture → 6, gives check → 5, other → 0); with fewer than two moves the
generated list is returned as is.  (Determinism is inherent: the orderer is
a function of the generator output.) -/
theorem claim_C8_orderer {Pos : Type} (lib : ChessLib Pos) (b : Board Pos) :
    (gen_and_order_moves lib b).length = (lib.generate_moves b.pos).length
    ∧ (gen_and_order_moves lib b).Perm (lib.generate_moves b.pos)
    ∧ (gen_and_order_moves lib b).Pairwise
        (fun m1 m2 => move_score lib b.pos m2 ≤ move_score lib b.pos m1)
    ∧ ((lib.generate_moves b.pos).length < 2 →
        gen_and_order_moves lib b = lib.generate_moves b.pos) :=
  ⟨gen_and_order_moves_length lib b, gen_and_order_moves_perm lib b,
   gen_and_order_moves_sorted lib b, gen_and_order_moves_short lib b⟩

/-- C8 witness: a three-move instance (capture 12, check 11, quiet 10) is
reordered to `[12, 11, 10]`, and a single-move instance is returned as
generated. -/
theorem claim_C8_witness :
    (gen_and_order_moves libC bB).Perm (libC.generate_moves bB.pos)
    ∧ (gen_and_order_moves libC bB).Pairwise
        (fun m1 m2 => move_score libC bB.pos m2 ≤ move_score libC bB.pos m1)
    ∧ (libB.generate_moves bB.pos).length < 2
    ∧ gen_and_order_moves libB bB = libB.generate_moves bB.pos :=
  ⟨(claim_C8_orderer libC bB).2.1, (claim_C8_orderer libC bB).2.2.1, by decide,
   (claim_C8_orderer libB bB).2.2.2 (by decide)⟩

/-- C1 (amended): the driver prints exactly one `bestmove` line, whose move
is either the null move or a member of `generate_moves()` of the root
position; when the root has zero legal moves it is the null move.  The
membership guarantee assumes the transposition table is sound for the
position hashes in use (`tt_inv`, with an injective Zobrist hash), which
holds for the vacant initial table and is preserved by every search; the
null move can also be printed when no depth-1 iteration completes
(configured depth 0, or the budget already exhausted at the first poll). -/
theorem claim_C1_driver_bestmove {Pos : Type} (lib : ChessLib Pos) (e : Engine Pos)
    (hinj : Function.Injective lib.zobrist)
    (hinv : tt_inv lib e.transposition_table) :
    ∃ m, (search lib e).2.getLast? = some (OutLine.bestmove m)
      ∧ (m = BitMove.null ∨ m ∈ lib.generate_moves e.board.pos)
      ∧ (lib.generate_moves e.board.pos = [] → m = BitMove.null)
      ∧ (search lib e).2.countP is_bestmove_line = 1 :=
  search_spec lib e hinj hinv

/-- C1 counterexample: on the command `go depth 0` the loop bound is 0, no
iteration runs, and the driver prints `bestmove` with the null move even
though the root position has a legal move — refuting the claim that the
printed move is always a generated move when the root has legal moves.
(The same null result is printed whenever the budget expires before the
depth-1 iteration completes.) -/
theorem claim_C1_counterexample :
    (go_handler libB ["go", "depth", "0"] { eB with oot_oracle := fun _ => false }).2
        = [OutLine.bestmove BitMove.null]
    ∧ ¬(BitMove.null ∈ libB.generate_moves eB.board.pos)
    ∧ libB.generate_moves eB.board.pos ≠ [] := by
  refine ⟨?_, by decide, by decide⟩
  rw [go_handler]
  dsimp only
  rw [search]
  dsimp only
  rw [search_loop, dif_neg (by decide)]
  rfl

/-- C1 witness: the amended theorem applied to the concrete engine with its
all-vacant table and identity hash. -/
theorem claim_C1_witness :
    Function.Injective libB.zobrist
    ∧ tt_inv libB eB.transposition_table
    ∧ ∃ m, (search libB eB).2.getLast? = some (OutLine.bestmove m)
        ∧ (m = BitMove.null ∨ m ∈ libB.generate_moves eB.board.pos)
        ∧ (libB.generate_moves eB.board.pos = [] → m = BitMove.null)
        ∧ (search libB eB).2.countP is_bestmove_line = 1 := by
  have hinj : Function.Injective libB.zobrist := fun a b hab => hab
  have hinv : tt_inv libB eB.transposition_table := by
    intro obj hmem hnull p hp
    have hobj : obj ∈ List.replicate 65536 TranspositionObject.new := hmem
    rw [List.mem_replicate] at hobj
    rw [hobj.2] at hnull
    exact absurd rfl hnull
  exact ⟨hinj, hinv, claim_C1_driver_bestmove libB eB hinj hinv⟩

/-- C2 (amended): the searcher returns the sentinel `(null_move, −1)` when
the deadline check — which runs only after the leaf test and the
transposition cutoff test — reports the budget exhausted, changing nothing
but the poll counter; and on receiving the sentinel pair from a child call,
the move loop returns the sentinel at once with the engine of the child
unchanged (in particular no transposition store) and the board restored.
Conversely, when the clock never reports the budget exhausted, the searcher
never returns the sentinel pair: every score it can produce is a multiple
of 5, a u16-offset mate score, or an initial window bound, none of which is
−1 (hypotheses: the window bounds and the table scores have those shapes —
true of the initial window and the vacant table — and the half-move counter
is a u16).  (The original claim demands "if and only if the budget was
exhausted at entry to that call", which fails: a leaf or TT-cutoff call
returns before the deadline check — see the counterexample.) -/
theorem claim_C2_deadline_sentinel {Pos : Type} (lib : ChessLib Pos) (e : Engine Pos)
    (b : Board Pos) (depth : Nat) (alpha beta : Int) (search_extensions : Nat)
    (best_move mv : BitMove) (rest : List BitMove) (hd : 0 < depth) :
    (¬(depth = 0 ∨ gen_and_order_moves lib b = []) →
      ¬((transposition_find lib e b).best_move ≠ BitMove.null
          ∧ depth ≤ (transposition_find lib e b).depth) →
      e.oot_oracle e.ticks = true →
      minimax lib e b depth alpha beta search_extensions
        = ⟨{ e with ticks := e.ticks + 1 }, b, BitMove.null, -1⟩)
    ∧ ((child_call_white lib e (Board.apply_move lib b mv) depth alpha beta search_extensions
            mv hd).best_move = BitMove.null
        ∧ (child_call_white lib e (Board.apply_move lib b mv) depth alpha beta
            search_extensions mv hd).score = -1 →
        minimax_loop_white lib e b depth alpha beta search_extensions best_move (mv :: rest) hd
          = ⟨(child_call_white lib e (Board.apply_move lib b mv) depth alpha beta
              search_extensions mv hd).engine, b, BitMove.null, -1⟩)
    ∧ ((child_call_black lib e (Board.apply_move lib b mv) depth alpha beta search_extensions
            mv hd).best_move = BitMove.null
        ∧ (child_call_black lib e (Board.apply_move lib b mv) depth alpha beta
            search_extensions mv hd).score = -1 →
        minimax_loop_black lib e b depth alpha beta search_extensions best_move (mv :: rest) hd
          = ⟨(child_call_black lib e (Board.apply_move lib b mv) depth alpha beta
              search_extensions mv hd).engine, b, BitMove.null, -1⟩)
    ∧ (good_score alpha → good_score beta → tt_scores_inv e.transposition_table →
        (∀ t, e.oot_oracle t = false) → (∀ q : Pos, lib.moves_played q < 65536) →
        ¬((minimax lib e b depth alpha beta search_extensions).best_move = BitMove.null
          ∧ (minimax lib e b depth alpha beta search_extensions).score = -1)) :=
  ⟨fun hleaf htt ho =>
      minimax_deadline_sentinel lib e b depth alpha beta search_extensions hleaf htt ho,
   fun hsent =>
      minimax_loop_white_sentinel lib e b depth alpha beta search_extensions best_move mv rest
        hd hsent,
   fun hsent =>
      minimax_loop_black_sentinel lib e b depth alpha beta search_extensions best_move mv rest
        hd hsent,
   fun ha hb hinv horc hmp hfake =>
      good_score_ne_neg_one
        (minimax_good lib e b depth alpha beta search_extensions ha hb hinv horc hmp).2.2
        hfake.2⟩

/-- C2 counterexample: a depth-0 (leaf) call with the budget exhausted at
entry returns `(null_move, evaluate(position)) = (null_move, 0)`, not the
sentinel `(null_move, −1)` — the deadline check runs only after the leaf
test, refuting the "if and only if the budget was exhausted at entry"
phrasing. -/
theorem claim_C2_counterexample :
    eB.oot_oracle eB.ticks = true
    ∧ (minimax libB eB bB 0 0 0 MAX_EXTENSIONS).best_move = BitMove.null
    ∧ (minimax libB eB bB 0 0 0 MAX_EXTENSIONS).score = 0
    ∧ (0 : Int) ≠ -1 := by
  refine ⟨rfl, ?_, ?_, by decide⟩
  · rw [minimax, dif_pos (Or.inl rfl)]
  · rw [minimax, dif_pos (Or.inl rfl)]
    decide

/-- C2 witness: with the budget exhausted from the first poll, a depth-2
root call returns the sentinel from its deadline check, and each move loop,
receiving the sentinel from its child call, returns it unchanged. -/
theorem claim_C2_witness :
    (minimax libB eB bB 2 0 0 MAX_EXTENSIONS).best_move = BitMove.null
    ∧ (minimax libB eB bB 2 0 0 MAX_EXTENSIONS).score = -1
    ∧ (minimax_loop_white libB eB bB 2 0 0 MAX_EXTENSIONS BitMove.null [5]
        (Nat.succ_pos 1)).score = -1
    ∧ (minimax_loop_black libB eB bB 2 0 0 MAX_EXTENSIONS BitMove.null [5]
        (Nat.succ_pos 1)).score = -1
    ∧ ¬((minimax libB { eB with oot_oracle := fun _ => false } bB 2 0 0
          MAX_EXTENSIONS).best_move = BitMove.null
        ∧ (minimax libB { eB with oot_oracle := fun _ => false } bB 2 0 0
            MAX_EXTENSIONS).score = -1) := by
  have hd2 : (0 : Nat) < 2 := Nat.succ_pos 1
  have hroot := (claim_C2_deadline_sentinel libB eB bB 2 0 0 MAX_EXTENSIONS BitMove.null 5 []
    hd2).1 (by decide) (by decide) rfl
  have hinner := (claim_C2_deadline_sentinel libB eB (Board.apply_move libB bB 5) 1 0 0
    MAX_EXTENSIONS BitMove.null 5 [] (Nat.succ_pos 0)).1 (by decide) (by decide) rfl
  have hchildW : child_call_white libB eB (Board.apply_move libB bB 5) 2 0 0 MAX_EXTENSIONS 5 hd2
      = minimax libB eB (Board.apply_move libB bB 5) 1 0 0 MAX_EXTENSIONS := by
    rw [child_call_white, dif_neg (by decide), if_neg (by decide), if_neg (by decide)]
  have hchildB : child_call_black libB eB (Board.apply_move libB bB 5) 2 0 0 MAX_EXTENSIONS 5 hd2
      = minimax libB eB (Board.apply_move libB bB 5) 1 0 0 MAX_EXTENSIONS := by
    rw [child_call_black, dif_neg (by decide), if_neg (by decide), if_neg (by decide)]
  have hW := (claim_C2_deadline_sentinel libB eB bB 2 0 0 MAX_EXTENSIONS BitMove.null 5 []
    hd2).2.1 (by rw [hchildW, hinner]; exact ⟨rfl, rfl⟩)
  have hB := (claim_C2_deadline_sentinel libB eB bB 2 0 0 MAX_EXTENSIONS BitMove.null 5 []
    hd2).2.2.1 (by rw [hchildB, hinner]; exact ⟨rfl, rfl⟩)
  have hgood0 : good_score 0 := Or.inl (by decide)
  have hsinv : tt_scores_inv
      ({ eB with oot_oracle := fun _ => false } : Engine Nat).transposition_table := by
    intro obj hmem
    have hobj : obj ∈ List.replicate 65536 TranspositionObject.new := hmem
    rw [List.mem_replicate] at hobj
    rw [hobj.2]
    exact Or.inl (by decide)
  have hc4 := (claim_C2_deadline_sentinel libB { eB with oot_oracle := fun _ => false } bB
    2 0 0 MAX_EXTENSIONS BitMove.null 5 [] hd2).2.2.2 hgood0 hgood0 hsinv (fun t => rfl)
    (fun q => show (0 : Nat) < 65536 by decide)
  exact ⟨by rw [hroot], by rw [hroot], by rw [hW], by rw [hB], hc4⟩

/-- C9: immediately after `transposition_store(p, score, best_move, depth)`
on a consistently sized table with positive capacity, `transposition_find`
at the same position returns exactly the stored entry. -/
theorem claim_C9_store_probe_roundtrip {Pos : Type} (lib : ChessLib Pos) (e : Engine Pos)
    (p : Pos) (score : Int) (best_move : BitMove) (depth : Nat) (hist : List Pos)
    (hlen : e.transposition_table.length = e.hash_table_size_mb * MB_TO_ITEMS)
    (hmb : 0 < e.hash_table_size_mb) :
    transposition_find lib (transposition_store lib e p score best_move depth)
        { pos := p, hist := hist }
      = { hash := lib.zobrist p, score := score, depth := depth, best_move := best_move } :=
  transposition_store_find lib e p score best_move depth hist hlen hmb

/-- C9 witness: storing entry (hash 4, score 7, depth 3, move 5) in the
concrete 1 MiB engine and probing position 4 returns exactly that entry. -/
theorem claim_C9_witness :
    eB.transposition_table.length = eB.hash_table_size_mb * MB_TO_ITEMS
    ∧ 0 < eB.hash_table_size_mb
    ∧ transposition_find libB (transposition_store libB eB 4 7 5 3) { pos := 4, hist := [] }
        = { hash := 4, score := 7, depth := 3, best_move := 5 } := by
  have hlen : eB.transposition_table.length = eB.hash_table_size_mb * MB_TO_ITEMS := by
    show (List.replicate 65536 TranspositionObject.new).length = 1 * MB_TO_ITEMS
    rw [List.length_replicate]
    decide
  exact ⟨hlen, by decide, claim_C9_store_probe_roundtrip libB eB 4 7 5 3 [] hlen (by decide)⟩

/-- C10: every probe/store indexes the table at
`zobrist mod (hash_table_size_mb * 65536)`, in bounds whenever the size is
at least 1 MiB; the resize accepts 0 MiB (reachable via
`setoption name Hash value 0`), after which the modulus is zero and the next
index computation is a division by zero (`none` models the Rust panic)
rather than an unreachable branch. -/
theorem claim_C10_zero_hash_size {Pos : Type} (e : Engine Pos) (z : Nat)
    (hmb : 1 ≤ e.hash_table_size_mb)
    (hlen : e.transposition_table.length = e.hash_table_size_mb * MB_TO_ITEMS) :
    (transposition_index_checked e.hash_table_size_mb z
        = some (z % (e.hash_table_size_mb * MB_TO_ITEMS))
      ∧ z % (e.hash_table_size_mb * MB_TO_ITEMS) < e.transposition_table.length)
    ∧ setoption_handler ["setoption", "name", "Hash", "value", "0"] e
        = some (change_hash_size e 0)
    ∧ (change_hash_size e 0).hash_table_size_mb = 0
    ∧ (change_hash_size e 0).transposition_table = []
    ∧ transposition_index_checked (change_hash_size e 0).hash_table_size_mb z = none := by
  have hC : 0 < e.hash_table_size_mb * MB_TO_ITEMS :=
    Nat.mul_pos hmb (by decide : 0 < MB_TO_ITEMS)
  refine ⟨⟨?_, ?_⟩, rfl, rfl, rfl, ?_⟩
  · rw [transposition_index_checked, if_neg (Nat.pos_iff_ne_zero.mp hC)]
  · rw [hlen]
    exact Nat.mod_lt _ hC
  · rw [transposition_index_checked,
      if_pos (show (change_hash_size e 0).hash_table_size_mb * MB_TO_ITEMS = 0 from Nat.zero_mul MB_TO_ITEMS)]

/-- C10 witness: the in-bounds index and the post-resize division-by-zero
at the concrete engine and hash 123. -/
theorem claim_C10_witness :
    1 ≤ eB.hash_table_size_mb
    ∧ eB.transposition_table.length = eB.hash_table_size_mb * MB_TO_ITEMS
    ∧ (∃ i, transposition_index_checked eB.hash_table_size_mb 123 = some i
        ∧ i < eB.transposition_table.length)
    ∧ transposition_index_checked (change_hash_size eB 0).hash_table_size_mb 123 = none := by
  have hlen : eB.transposition_table.length = eB.hash_table_size_mb * MB_TO_ITEMS := by
    show (List.replicate 65536 TranspositionObject.new).length = 1 * MB_TO_ITEMS
    rw [List.length_replicate]
    decide
  have hall := claim_C10_zero_hash_size eB 123 (by decide) hlen
  exact ⟨by decide, hlen, ⟨_, hall.1.1, hall.1.2⟩, hall.2.2.2.2⟩
